import Mathlib

/-!
# Verification of the flex length resolution engine (`flex` package)

A shallow embedding of `flex/flex.go`: the `Item` sizing parameters, the
`Validate` normalization, the flex-base-size / hypothetical-main-size
computation, and the iterative grow/shrink distribution loop of
`ResolveFlexLengths`, together with proofs about them.

Modelling conventions:
* Go `int` is modelled as `Int` (no overflow concerns arise: the algorithm
  only adds, subtracts, multiplies and divides caller-supplied magnitudes).
* Go integer division truncates towards zero; it is modelled by `Int.tdiv`.
* The Go code mutates the caller's `[]Item` in place.  The caller-visible
  fields form the structure `Item`; the full Go struct (including the four
  unexported working fields `flexBaseSize`, `hypoMainSize`, `frozen`,
  `targetMainSize`) is the structure `WItem`.  Callers outside the package
  cannot set the unexported fields, so at entry they hold Go zero values
  (`mkWItem`).
* The `panic("no solution found")` taken when the loop exceeds `N+1`
  iterations is modelled by `none`: `flexLoop` is given `N+1` units of fuel,
  one per permitted iteration, and returns `none` exactly when the Go code
  would panic.
-/

/-- Caller-visible fields of `flex.Item` (`flex.go`). `Basis = -1` means
auto, `Max = 0` means unconstrained. -/
structure Item where
  Basis : Int
  Grow : Int
  Shrink : Int
  Size : Int
  Min : Int
  Max : Int
deriving DecidableEq, Repr

/-- The full `flex.Item` struct during resolution: caller-visible fields plus
the unexported working fields written by `ResolveFlexLengths`. -/
structure WItem where
  Basis : Int
  Grow : Int
  Shrink : Int
  Size : Int
  Min : Int
  Max : Int
  flexBaseSize : Int
  hypoMainSize : Int
  frozen : Bool
  targetMainSize : Int
deriving DecidableEq, Repr

/-- A `WItem` as seen from outside the package: a fresh item has all
unexported fields at their Go zero values. -/
def mkWItem (it : Item) : WItem :=
  { Basis := it.Basis, Grow := it.Grow, Shrink := it.Shrink, Size := it.Size
    Min := it.Min, Max := it.Max
    flexBaseSize := 0, hypoMainSize := 0, frozen := false, targetMainSize := 0 }

/-- Projection of a `WItem` back onto its caller-visible fields. -/
def wExported (it : WItem) : Item :=
  { Basis := it.Basis, Grow := it.Grow, Shrink := it.Shrink, Size := it.Size
    Min := it.Min, Max := it.Max }

/-- Statement `if it.Min < 1 { it.Min = 1 }` of `Validate` (`flex.go` 37–39). -/
def vMin (it : Item) : Item := if it.Min < 1 then { it with Min := 1 } else it

/-- Statement `if it.Grow < 0 { it.Grow = 0 }` of `Validate` (`flex.go` 40–42). -/
def vGrow (it : Item) : Item := if it.Grow < 0 then { it with Grow := 0 } else it

/-- Statement `if it.Shrink < 0 { it.Shrink = 0 }` of `Validate` (`flex.go` 43–45). -/
def vShrink (it : Item) : Item := if it.Shrink < 0 then { it with Shrink := 0 } else it

/-- Statement `if it.Size < 1 { it.Size = 1 }` of `Validate` (`flex.go` 46–48). -/
def vSize (it : Item) : Item := if it.Size < 1 then { it with Size := 1 } else it

/-- Statement `if it.Max < 0 { it.Max = 0 }` of `Validate` (`flex.go` 49–51). -/
def vMax (it : Item) : Item := if it.Max < 0 then { it with Max := 0 } else it

/-- Statement `if it.Size < it.Min { it.Size = it.Min }` of `Validate`
(`flex.go` 52–54). -/
def vSizeMin (it : Item) : Item := if it.Size < it.Min then { it with Size := it.Min } else it

/-- The final `if it.Max != 0 { ... }` block of `Validate` (`flex.go` 55–62):
raise `Max` to `Min`, then cap `Size` at `Max`. -/
def vMaxBlock (it : Item) : Item :=
  if it.Max ≠ 0 then
    let it2 := if it.Max < it.Min then { it with Max := it.Min } else it
    if it2.Max < it2.Size then { it2 with Size := it2.Max } else it2
  else it

/-- `(*Item).Validate` (`flex.go` lines 36–63): sanitize the caller-visible
sizing parameters, applying the statements in source order. -/
def Validate (it : Item) : Item :=
  vMaxBlock (vSizeMin (vMax (vSize (vShrink (vGrow (vMin it))))))

/-- `(*Item).determineFlexBaseSize` (`flex.go` lines 65–71). -/
def determineFlexBaseSize (it : WItem) : WItem :=
  if 0 ≤ it.Basis then { it with flexBaseSize := it.Basis }
  else { it with flexBaseSize := it.Size }

/-- `(*Item).determineHypoMainSize` (`flex.go` lines 73–81): flex base size
clamped into `[Min, Max]` (no upper clamp when `Max = 0`). -/
def determineHypoMainSize (it : WItem) : WItem :=
  let h := it.flexBaseSize
  let h := if h < it.Min then it.Min else h
  let h := if it.Max ≠ 0 ∧ it.Max < h then it.Max else h
  { it with hypoMainSize := h }

/-- `(*Item).sizeIfInflexible` (`flex.go` lines 83–95): freeze an item that
cannot move in the chosen direction, at its hypothetical main size. -/
def sizeIfInflexible (useGrow : Bool) (it : WItem) : WItem :=
  if useGrow then
    if it.Grow = 0 ∨ it.hypoMainSize < it.flexBaseSize then
      { it with targetMainSize := it.hypoMainSize, frozen := true }
    else it
  else
    if it.Shrink = 0 ∨ it.flexBaseSize < it.hypoMainSize then
      { it with targetMainSize := it.hypoMainSize, frozen := true }
    else it

/-- The container size is clamped to be non-negative (`flex.go` lines
103–105). -/
def clampContainer (cs : Int) : Int := if cs < 0 then 0 else cs

/-- The per-item preprocessing of `ResolveFlexLengths` (`flex.go` lines
107–116): validate, then determine flex base size and hypothetical main
size.  The working fields start at their Go zero values. -/
def prepItem (it : Item) : WItem :=
  determineHypoMainSize (determineFlexBaseSize (mkWItem (Validate it)))

/-- All items after preprocessing, in input order. -/
def prepItems (items : List Item) : List WItem := items.map prepItem

/-- Sum of hypothetical main sizes (`sumHypoMainSize` in `flex.go`). -/
def sumHypo (l : List WItem) : Int := (l.map WItem.hypoMainSize).sum

/-- An item's contribution to the free-space computation: target size when
frozen, flex base size otherwise (`flex.go` lines 138–144 and 161–167). -/
def contribution (it : WItem) : Int :=
  if it.frozen then it.targetMainSize else it.flexBaseSize

/-- `remainingFreeSpace` as recomputed at each iteration (`flex.go` lines
160–167). -/
def remainingFree (cs : Int) (l : List WItem) : Int :=
  cs - (l.map contribution).sum

/-- `allFrozen` (`flex.go` lines 257–264). -/
def allFrozen (l : List WItem) : Bool := l.all WItem.frozen

/-- `sumUnfrozenGrowFactors` (`flex.go` lines 266–274). -/
def sumUnfrozenGrowFactors (l : List WItem) : Int :=
  (l.map (fun it => if it.frozen then 0 else it.Grow)).sum

/-- An item's scaled shrink factor: shrink factor times flex base size
(`flex.go` line 190). -/
def scaledShrink (it : WItem) : Int := it.Shrink * it.flexBaseSize

/-- Sum of the scaled shrink factors of unfrozen items (`flex.go` lines
184–192). -/
def sumScaledShrinks (l : List WItem) : Int :=
  (l.map (fun it => if it.frozen then 0 else scaledShrink it)).sum

/-- The growing distribution pass (`flex.go` lines 171–182): walk the items
in order, skipping frozen ones; each unfrozen item receives
`remainingFreeSpace * Grow / sumGF` (truncating division), and both the
remaining free space and the weight sum are reduced before the next item. -/
def distributeGrow : Int → Int → List WItem → List WItem
  | _, _, [] => []
  | rfs, sumGF, it :: rest =>
    if it.frozen then it :: distributeGrow rfs sumGF rest
    else
      let growSpace := Int.tdiv (rfs * it.Grow) sumGF
      { it with targetMainSize := it.flexBaseSize + growSpace } ::
        distributeGrow (rfs - growSpace) (sumGF - it.Grow) rest

/-- The shrinking distribution pass (`flex.go` lines 183–205): same
remaining-pool technique with weights `Shrink * flexBaseSize`; the share is
negative (remaining free space is negative when shrinking). -/
def distributeShrink : Int → Int → List WItem → List WItem
  | _, _, [] => []
  | rfs, sumSS, it :: rest =>
    if it.frozen then it :: distributeShrink rfs sumSS rest
    else
      let shrinkSpace := Int.tdiv (rfs * scaledShrink it) sumSS
      { it with targetMainSize := it.flexBaseSize + shrinkSpace } ::
        distributeShrink (rfs - shrinkSpace) (sumSS - scaledShrink it) rest

/-- Step 4.c of a loop iteration (`flex.go` lines 169–207): distribute the
remaining free space if it is non-zero, in the chosen direction. -/
def distributeStep (cs : Int) (useGrow : Bool) (l : List WItem) : List WItem :=
  let rfs := remainingFree cs l
  if rfs ≠ 0 then
    if useGrow then distributeGrow rfs (sumUnfrozenGrowFactors l) l
    else distributeShrink rfs (sumScaledShrinks l) l
  else l

/-- Step 4.d, per item (`flex.go` lines 211–229): clamp an unfrozen item's
target into `[Min, Max]` and return it with its violation
(`clamped - unclamped`: positive for a min violation, negative for a max
violation, zero otherwise). -/
def clampItem (it : WItem) : WItem × Int :=
  if it.frozen then (it, 0)
  else if it.targetMainSize < it.Min then
    ({ it with targetMainSize := it.Min }, it.Min - it.targetMainSize)
  else if it.Max ≠ 0 ∧ it.Max < it.targetMainSize then
    ({ it with targetMainSize := it.Max }, it.Max - it.targetMainSize)
  else (it, 0)

/-- Clamp every item, keeping each with its violation. -/
def clampAll (l : List WItem) : List (WItem × Int) := l.map clampItem

/-- `totalViolation` (`flex.go` lines 213–228). -/
def totalViolation (cl : List (WItem × Int)) : Int := (cl.map Prod.snd).sum

/-- The freeze decision (`flex.go` lines 231–247): freeze everything when the
total violation is zero, only the min violators when it is positive, only the
max violators when it is negative. -/
def freezeBySign (tv : Int) (cl : List (WItem × Int)) : List WItem :=
  if tv = 0 then cl.map (fun p => { p.1 with frozen := true })
  else if 0 < tv then
    cl.map (fun p => if 0 < p.2 then { p.1 with frozen := true } else p.1)
  else
    cl.map (fun p => if p.2 < 0 then { p.1 with frozen := true } else p.1)

/-- One iteration of the distribution loop (`flex.go` lines 159–247):
recompute free space, distribute, clamp, and freeze by the sign of the total
violation. -/
def loopBody (cs : Int) (useGrow : Bool) (l : List WItem) : List WItem :=
  let cl := clampAll (distributeStep cs useGrow l)
  freezeBySign (totalViolation cl) cl

/-- The bounded distribution loop (`flex.go` lines 146–248).  Each unit of
fuel licenses one iteration (the Go code permits `N+1` of them); running out
of fuel is the `panic("no solution found")` branch, modelled as `none`. -/
def flexLoop : Nat → Int → Bool → List WItem → Option (List WItem)
  | 0, _, _, _ => none
  | fuel + 1, cs, useGrow, l =>
    if allFrozen l then some l else flexLoop fuel cs useGrow (loopBody cs useGrow l)

/-- `initialFreeSpace` (`flex.go` lines 137–144).  The source computes this
value but never reads it afterwards; it is kept for fidelity. -/
def initialFreeSpace (cs : Int) (l : List WItem) : Int := remainingFree cs l

/-- The direction flag `useGrow` chosen for the whole call (`flex.go` line
129): growing iff the hypothetical sizes sum below the clamped container
size. -/
def useGrowOf (items : List Item) (cs : Int) : Bool :=
  decide (sumHypo (prepItems items) < clampContainer cs)

/-- The item states at entry to the distribution loop: preprocessed items
after the pre-freeze pass (`flex.go` lines 131–134). -/
def initItems (items : List Item) (cs : Int) : List WItem :=
  (prepItems items).map (sizeIfInflexible (useGrowOf items cs))

/-- The item states after `k` iterations of the distribution loop. -/
def loopStateAt (items : List Item) (cs : Int) (k : Nat) : List WItem :=
  (loopBody (clampContainer cs) (useGrowOf items cs))^[k] (initItems items cs)

/-- Whether the clamp pass of one iteration starting from state `l` records
any non-zero violation. -/
def iterViolation (cs : Int) (useGrow : Bool) (l : List WItem) : Bool :=
  (clampAll (distributeStep cs useGrow l)).any (fun p => p.2 != 0)

/-- `flex.ResolveFlexLengths` (`flex.go` lines 97–255): clamp the container
size, preprocess all items, take the fast path when the hypothetical sizes
already sum to the container size, otherwise run the pre-freeze pass and the
bounded distribution loop.  `none` models the panic branch. -/
def ResolveFlexLengths (items : List Item) (cs : Int) : Option (List Int) :=
  let cs' := clampContainer cs
  let pre := prepItems items
  if sumHypo pre = cs' then some (pre.map WItem.hypoMainSize)
  else
    let useGrow := decide (sumHypo pre < cs')
    match flexLoop (pre.length + 1) cs' useGrow (pre.map (sizeIfInflexible useGrow)) with
    | some fin => some (fin.map WItem.targetMainSize)
    | none => none

/-- The final states of the caller's (in-place mutated) item records at
return from `ResolveFlexLengths`: the preprocessed items on the fast path,
the loop's final states otherwise. -/
def finalWItems (items : List Item) (cs : Int) : Option (List WItem) :=
  let cs' := clampContainer cs
  let pre := prepItems items
  if sumHypo pre = cs' then some pre
  else
    let useGrow := decide (sumHypo pre < cs')
    flexLoop (pre.length + 1) cs' useGrow (pre.map (sizeIfInflexible useGrow))

/-- `ResolveFlexLengths` with the fast path removed (spec §4.3 describes the
fast path as "a pure optimization/shortcut … changes no observable result
versus running the full loop on this exact boundary value"): the iterative
loop always runs. -/
def ResolveFlexLengthsNoFast (items : List Item) (cs : Int) : Option (List Int) :=
  let cs' := clampContainer cs
  let pre := prepItems items
  let useGrow := decide (sumHypo pre < cs')
  match flexLoop (pre.length + 1) cs' useGrow (pre.map (sizeIfInflexible useGrow)) with
  | some fin => some (fin.map WItem.targetMainSize)
  | none => none

-- Sanity checks against the repository's own test expectations
-- (`flex_test.go`).
example : ResolveFlexLengths [⟨0, 1, 0, 0, 0, 0⟩] 60 = some [60] := by decide
example : ResolveFlexLengths [⟨0, 1, 0, 0, 0, 0⟩, ⟨0, 2, 0, 0, 0, 0⟩] 60 = some [20, 40] := by
  decide
example :
    ResolveFlexLengths [⟨0, 1, 0, 0, 0, 0⟩, ⟨0, 2, 0, 0, 0, 0⟩, ⟨0, 3, 0, 0, 0, 0⟩] 60 =
      some [10, 20, 30] := by decide
example : ResolveFlexLengths [⟨10, 0, 1, 0, 0, 0⟩] 0 = some [1] := by decide
example : ResolveFlexLengths [⟨0, 0, 1, 0, 10, 0⟩] 0 = some [10] := by decide
example : ResolveFlexLengths [⟨10, 1, 0, 0, 0, 0⟩, ⟨0, 2, 0, 0, 0, 0⟩] 60 = some [26, 34] := by
  decide
example : ResolveFlexLengths [⟨0, 1, 0, 0, 0, 0⟩, ⟨10, 2, 0, 0, 0, 0⟩] 60 = some [16, 44] := by
  decide
example :
    ResolveFlexLengths [⟨-1, 0, 1, 80, 0, 0⟩, ⟨-1, 0, 1, 80, 0, 0⟩] 60 = some [30, 30] := by
  decide
example :
    ResolveFlexLengths [⟨-1, 0, 2, 60, 0, 0⟩, ⟨-1, 0, 1, 60, 0, 0⟩] 60 = some [20, 40] := by
  decide
example :
    ResolveFlexLengths [⟨30, 0, 0, 0, 0, 0⟩, ⟨0, 1, 0, 0, 0, 0⟩, ⟨0, 2, 0, 0, 0, 0⟩] 60 =
      some [30, 10, 20] := by decide
example :
    ResolveFlexLengths [⟨40, 0, 0, 0, 0, 0⟩, ⟨40, 0, 1, 0, 0, 0⟩, ⟨40, 0, 1, 0, 0, 0⟩] 60 =
      some [40, 10, 10] := by decide
example :
    ResolveFlexLengths
      [⟨0, 1, 1, 20, 20, 0⟩, ⟨0, 1, 1, 3, 3, 0⟩, ⟨0, 4, 1, 10, 5, 0⟩,
       ⟨0, 1, 1, 3, 3, 0⟩, ⟨0, 1, 1, 3, 3, 0⟩] 60 = some [20, 5, 23, 6, 6] := by decide

/-! ## Normalization: postconditions, fixed point, idempotence -/

lemma vMin_eq (it : Item) : vMin it = { it with Min := max it.Min 1 } := by
  obtain ⟨b, g, s, sz, mn, mx⟩ := it
  simp only [vMin]
  split_ifs <;> simp_all [Item.mk.injEq] <;> omega

lemma vGrow_eq (it : Item) : vGrow it = { it with Grow := max it.Grow 0 } := by
  obtain ⟨b, g, s, sz, mn, mx⟩ := it
  simp only [vGrow]
  split_ifs <;> simp_all [Item.mk.injEq] <;> omega

lemma vShrink_eq (it : Item) : vShrink it = { it with Shrink := max it.Shrink 0 } := by
  obtain ⟨b, g, s, sz, mn, mx⟩ := it
  simp only [vShrink]
  split_ifs <;> simp_all [Item.mk.injEq] <;> omega

lemma vSize_eq (it : Item) : vSize it = { it with Size := max it.Size 1 } := by
  obtain ⟨b, g, s, sz, mn, mx⟩ := it
  simp only [vSize]
  split_ifs <;> simp_all [Item.mk.injEq] <;> omega

lemma vMax_eq (it : Item) : vMax it = { it with Max := max it.Max 0 } := by
  obtain ⟨b, g, s, sz, mn, mx⟩ := it
  simp only [vMax]
  split_ifs <;> simp_all [Item.mk.injEq] <;> omega

lemma vSizeMin_eq (it : Item) : vSizeMin it = { it with Size := max it.Size it.Min } := by
  obtain ⟨b, g, s, sz, mn, mx⟩ := it
  simp only [vSizeMin]
  split_ifs <;> simp_all [Item.mk.injEq] <;> omega

lemma vMaxBlock_eq (it : Item) :
    vMaxBlock it =
      if it.Max = 0 then it
      else { it with Max := max it.Max it.Min, Size := min it.Size (max it.Max it.Min) } := by
  obtain ⟨b, g, s, sz, mn, mx⟩ := it
  simp only [vMaxBlock]
  split_ifs <;> simp_all [Item.mk.injEq] <;> omega

/-- `Validate` in closed form: `Basis` untouched, `Grow`/`Shrink` clamped to
non-negative, `Min` raised to at least 1, `Size` raised to
`max (max Size 1) Min`, then `Max` (when constraining) raised to `Min` and
`Size` capped at it. -/
lemma Validate_eq (it : Item) :
    Validate it =
      if max it.Max 0 = 0 then
        ⟨it.Basis, max it.Grow 0, max it.Shrink 0, max (max it.Size 1) (max it.Min 1),
          max it.Min 1, max it.Max 0⟩
      else
        ⟨it.Basis, max it.Grow 0, max it.Shrink 0,
          min (max (max it.Size 1) (max it.Min 1)) (max (max it.Max 0) (max it.Min 1)),
          max it.Min 1, max (max it.Max 0) (max it.Min 1)⟩ := by
  obtain ⟨b, g, s, sz, mn, mx⟩ := it
  simp only [Validate, vMin_eq, vGrow_eq, vShrink_eq, vSize_eq, vMax_eq, vSizeMin_eq,
    vMaxBlock_eq]

/-- After `Validate` all §3 invariants of the spec hold: `Min ≥ 1`, weights
and `Max` non-negative, `Size ∈ [Min, Max]` (upper bound only when `Max ≠ 0`),
and `Max ≥ Min` when constrained. -/
lemma Validate_post (it : Item) :
    1 ≤ (Validate it).Min ∧ 0 ≤ (Validate it).Grow ∧ 0 ≤ (Validate it).Shrink ∧
      (Validate it).Min ≤ (Validate it).Size ∧ 0 ≤ (Validate it).Max ∧
      ((Validate it).Max ≠ 0 →
        (Validate it).Min ≤ (Validate it).Max ∧ (Validate it).Size ≤ (Validate it).Max) := by
  rw [Validate_eq]
  split_ifs <;> simp_all <;> omega

/-- `Validate` does not touch `Basis`. -/
lemma Validate_basis (it : Item) : (Validate it).Basis = it.Basis := by
  rw [Validate_eq]
  split_ifs <;> rfl

/-- Normalizing an already-normalized item is a no-op (spec §8). -/
lemma Validate_idem (it : Item) : Validate (Validate it) = Validate it := by
  rw [Validate_eq it, Validate_eq]
  split_ifs <;> simp_all [Item.mk.injEq] <;> omega

/-! ## Structural preservation through the pipeline -/

/-- The data of a `WItem` that the distribution loop never modifies: the
caller-visible fields, the flex base size and the hypothetical main size. -/
def persistent (it : WItem) : Item × Int × Int :=
  (wExported it, it.flexBaseSize, it.hypoMainSize)

/-- The data a distribution/clamp pass never modifies: `persistent` plus the
frozen flag (only the freeze decision flips `frozen`). -/
def stable (it : WItem) : (Item × Int × Int) × Bool :=
  (persistent it, it.frozen)

@[simp] lemma persistent_setTarget (it : WItem) (t : Int) :
    persistent { it with targetMainSize := t } = persistent it := rfl

@[simp] lemma persistent_setFrozen (it : WItem) (b : Bool) :
    persistent { it with frozen := b } = persistent it := rfl

@[simp] lemma stable_setTarget (it : WItem) (t : Int) :
    stable { it with targetMainSize := t } = stable it := rfl

lemma distributeGrow_stable (R S : Int) (l : List WItem) :
    (distributeGrow R S l).map stable = l.map stable := by
  induction l generalizing R S with
  | nil => rfl
  | cons it rest ih =>
    by_cases h : it.frozen <;> simp [distributeGrow, h, ih, stable, persistent, wExported]

lemma distributeShrink_stable (R S : Int) (l : List WItem) :
    (distributeShrink R S l).map stable = l.map stable := by
  induction l generalizing R S with
  | nil => rfl
  | cons it rest ih =>
    by_cases h : it.frozen <;> simp [distributeShrink, h, ih, stable, persistent, wExported]

lemma distributeStep_stable (cs : Int) (ug : Bool) (l : List WItem) :
    (distributeStep cs ug l).map stable = l.map stable := by
  unfold distributeStep
  by_cases h : remainingFree cs l ≠ 0 <;> by_cases hg : ug <;>
    simp [h, hg, distributeGrow_stable, distributeShrink_stable]

lemma clampItem_fst_stable (it : WItem) : stable (clampItem it).1 = stable it := by
  unfold clampItem
  split_ifs <;> rfl

lemma clampItem_frozen (it : WItem) : (clampItem it).1.frozen = it.frozen := by
  unfold clampItem
  split_ifs <;> rfl

lemma clampItem_of_frozen (it : WItem) (h : it.frozen = true) : clampItem it = (it, 0) := by
  unfold clampItem
  simp [h]

lemma clampItem_snd_ne_zero (it : WItem) (h : (clampItem it).2 ≠ 0) : it.frozen = false := by
  by_cases hf : it.frozen
  · rw [clampItem_of_frozen it hf] at h
    simp at h
  · simpa using hf

lemma clampAll_fst_stable (l : List WItem) :
    (clampAll l).map (fun p => stable p.1) = l.map stable := by
  unfold clampAll
  rw [List.map_map]
  exact List.map_congr_left fun it _ => clampItem_fst_stable it

lemma freezeBySign_persistent (tv : Int) (cl : List (WItem × Int)) :
    (freezeBySign tv cl).map persistent = cl.map (fun p => persistent p.1) := by
  unfold freezeBySign
  split_ifs <;> rw [List.map_map] <;> refine List.map_congr_left fun p _ => ?_ <;>
    dsimp only [Function.comp] <;> (try split_ifs) <;> simp [persistent, wExported]

lemma stable_to_persistent (l l' : List WItem)
    (h : l'.map stable = l.map stable) : l'.map persistent = l.map persistent := by
  have := congrArg (List.map Prod.fst) h
  rwa [List.map_map, List.map_map] at this

lemma loopBody_persistent (cs : Int) (ug : Bool) (l : List WItem) :
    (loopBody cs ug l).map persistent = l.map persistent := by
  unfold loopBody
  rw [freezeBySign_persistent]
  have h1 : (clampAll (distributeStep cs ug l)).map (fun p => persistent p.1)
      = (distributeStep cs ug l).map persistent := by
    unfold clampAll
    rw [List.map_map]
    exact List.map_congr_left fun it _ => congrArg Prod.fst (clampItem_fst_stable it)
  rw [h1]
  exact stable_to_persistent _ _ (distributeStep_stable cs ug l)

lemma loopBody_length (cs : Int) (ug : Bool) (l : List WItem) :
    (loopBody cs ug l).length = l.length := by
  have := congrArg List.length (loopBody_persistent cs ug l)
  simpa using this

lemma flexLoop_persistent (fuel : Nat) (cs : Int) (ug : Bool) (l fin : List WItem)
    (h : flexLoop fuel cs ug l = some fin) : fin.map persistent = l.map persistent := by
  induction fuel generalizing l with
  | zero => simp [flexLoop] at h
  | succ n ih =>
    unfold flexLoop at h
    split_ifs at h with hall
    · cases h
      rfl
    · rw [ih _ h, loopBody_persistent]

lemma flexLoop_allFrozen (fuel : Nat) (cs : Int) (ug : Bool) (l fin : List WItem)
    (h : flexLoop fuel cs ug l = some fin) : allFrozen fin = true := by
  induction fuel generalizing l with
  | zero => simp [flexLoop] at h
  | succ n ih =>
    unfold flexLoop at h
    split_ifs at h with hall
    · cases h
      exact hall
    · exact ih _ h

/-! ## Termination: each iteration freezes at least one item -/

/-- Number of unfrozen items. -/
def unfrozenCount (l : List WItem) : Nat := l.countP (fun it => !it.frozen)

lemma sum_nonpos_int (l : List Int) (h : ∀ x ∈ l, x ≤ 0) : l.sum ≤ 0 := by
  induction l with
  | nil => simp
  | cons a t ih =>
    simp only [List.sum_cons]
    have h1 := h a (by simp)
    have h2 := ih fun x hx => h x (by simp [hx])
    omega

lemma sum_nonneg_int (l : List Int) (h : ∀ x ∈ l, 0 ≤ x) : 0 ≤ l.sum := by
  induction l with
  | nil => simp
  | cons a t ih =>
    simp only [List.sum_cons]
    have h1 := h a (by simp)
    have h2 := ih fun x hx => h x (by simp [hx])
    omega

lemma exists_pos_of_sum_pos (l : List Int) (h : 0 < l.sum) : ∃ x ∈ l, 0 < x := by
  by_contra hc
  push_neg at hc
  exact absurd (sum_nonpos_int l hc) (by omega)

lemma exists_neg_of_sum_neg (l : List Int) (h : l.sum < 0) : ∃ x ∈ l, x < 0 := by
  by_contra hc
  push_neg at hc
  exact absurd (sum_nonneg_int l hc) (by omega)

lemma countP_comp_le {α β : Type} (l : List α) (f : α → β) (p : β → Bool) (q : α → Bool)
    (h : ∀ x ∈ l, p (f x) = true → q x = true) :
    l.countP (fun x => p (f x)) ≤ l.countP q := by
  induction l with
  | nil => simp
  | cons a t ih =>
    simp only [List.countP_cons]
    have ht := ih fun x hx => h x (by simp [hx])
    have ha := h a (by simp)
    by_cases hp : p (f a) = true
    · simp only [hp, ha hp, if_true]
      omega
    · simp only [Bool.not_eq_true] at hp
      simp only [hp, Bool.false_eq_true, if_false]
      split <;> omega

lemma countP_map_le {α β : Type} (l : List α) (f : α → β) (p : β → Bool) (q : α → Bool)
    (h : ∀ x ∈ l, p (f x) = true → q x = true) : (l.map f).countP p ≤ l.countP q := by
  rw [List.countP_map]
  exact countP_comp_le l f p q h

lemma countP_comp_lt {α β : Type} (l : List α) (f : α → β) (p : β → Bool) (q : α → Bool)
    (h : ∀ x ∈ l, p (f x) = true → q x = true)
    (hx : ∃ x ∈ l, q x = true ∧ p (f x) = false) :
    l.countP (fun x => p (f x)) < l.countP q := by
  induction l with
  | nil => simp at hx
  | cons a t ih =>
    simp only [List.countP_cons]
    obtain ⟨x, hmem, hqx, hpx⟩ := hx
    rcases List.mem_cons.mp hmem with rfl | hxt
    · have ht := countP_comp_le t f p q fun y hy => h y (by simp [hy])
      simp only [hpx, hqx, Bool.false_eq_true, if_false, if_true]
      omega
    · have ht := ih (fun y hy => h y (by simp [hy])) ⟨x, hxt, hqx, hpx⟩
      have ha := h a (by simp)
      by_cases hp : p (f a) = true
      · simp only [hp, ha hp, if_true]
        omega
      · simp only [Bool.not_eq_true] at hp
        simp only [hp, Bool.false_eq_true, if_false]
        split <;> omega

lemma countP_map_lt {α β : Type} (l : List α) (f : α → β) (p : β → Bool) (q : α → Bool)
    (h : ∀ x ∈ l, p (f x) = true → q x = true)
    (hx : ∃ x ∈ l, q x = true ∧ p (f x) = false) : (l.map f).countP p < l.countP q := by
  rw [List.countP_map]
  exact countP_comp_lt l f p q h hx

lemma unfrozenCount_eq_of_stable (l l' : List WItem) (h : l'.map stable = l.map stable) :
    unfrozenCount l' = unfrozenCount l := by
  unfold unfrozenCount
  have hc : (fun it : WItem => !it.frozen) = (fun x : (Item × Int × Int) × Bool => !x.2) ∘ stable :=
    rfl
  rw [hc, ← List.countP_map, ← List.countP_map, h]

lemma clampAll_unfrozen (l : List WItem) :
    (clampAll l).countP (fun p => !p.1.frozen) = unfrozenCount l := by
  unfold clampAll unfrozenCount
  rw [List.countP_map]
  exact List.countP_congr fun it _ => by
    simp [Function.comp, clampItem_frozen]

lemma mem_clampAll (l : List WItem) (p : WItem × Int) (h : p ∈ clampAll l) :
    ∃ it ∈ l, p = clampItem it := by
  unfold clampAll at h
  obtain ⟨it, hit, heq⟩ := List.mem_map.mp h
  exact ⟨it, hit, heq.symm⟩

lemma freezeBySign_unfrozen_zero (cl : List (WItem × Int)) :
    unfrozenCount (freezeBySign 0 cl) = 0 := by
  unfold freezeBySign unfrozenCount
  rw [if_pos rfl, List.countP_eq_zero]
  intro a ha
  obtain ⟨q, hq, rfl⟩ := List.mem_map.mp ha
  simp

lemma freezeBySign_unfrozen_lt_of_pos (tv : Int) (cl : List (WItem × Int)) (htv : 0 < tv)
    (hex : ∃ p ∈ cl, 0 < p.2 ∧ p.1.frozen = false) :
    unfrozenCount (freezeBySign tv cl) < cl.countP (fun p => !p.1.frozen) := by
  unfold freezeBySign unfrozenCount
  rw [if_neg (by omega), if_pos htv]
  obtain ⟨p, hp, hppos, hpunf⟩ := hex
  refine countP_map_lt cl _ _ _ ?_ ⟨p, hp, by simp [hpunf], by simp [hppos]⟩
  intro x _ hx
  by_cases hxx : 0 < x.2
  · simp [hxx] at hx
  · simpa [hxx] using hx

lemma freezeBySign_unfrozen_lt_of_neg (tv : Int) (cl : List (WItem × Int)) (htv : tv < 0)
    (hex : ∃ p ∈ cl, p.2 < 0 ∧ p.1.frozen = false) :
    unfrozenCount (freezeBySign tv cl) < cl.countP (fun p => !p.1.frozen) := by
  unfold freezeBySign unfrozenCount
  rw [if_neg (by omega), if_neg (by omega)]
  obtain ⟨p, hp, hpneg, hpunf⟩ := hex
  refine countP_map_lt cl _ _ _ ?_ ⟨p, hp, by simp [hpunf], by simp [hpneg]⟩
  intro x _ hx
  by_cases hxx : x.2 < 0
  · simp [hxx] at hx
  · simpa [hxx] using hx

lemma loopBody_unfrozen_lt (cs : Int) (ug : Bool) (l : List WItem)
    (h : allFrozen l = false) : unfrozenCount (loopBody cs ug l) < unfrozenCount l := by
  have hex : ∃ it ∈ l, it.frozen = false := by
    unfold allFrozen at h
    rcases List.all_eq_false.mp h with ⟨it, hit, hfr⟩
    exact ⟨it, hit, by simpa using hfr⟩
  have hpos : 0 < unfrozenCount l := by
    unfold unfrozenCount
    rw [List.countP_pos_iff]
    obtain ⟨it, hit, hfr⟩ := hex
    exact ⟨it, hit, by simp [hfr]⟩
  have hdcount : unfrozenCount (distributeStep cs ug l) = unfrozenCount l :=
    unfrozenCount_eq_of_stable l _ (distributeStep_stable cs ug l)
  have hclcount : (clampAll (distributeStep cs ug l)).countP (fun p => !p.1.frozen)
      = unfrozenCount l := by
    rw [clampAll_unfrozen, hdcount]
  have hbody : loopBody cs ug l
      = freezeBySign (totalViolation (clampAll (distributeStep cs ug l)))
          (clampAll (distributeStep cs ug l)) := rfl
  rw [hbody]
  rcases lt_trichotomy (totalViolation (clampAll (distributeStep cs ug l))) 0 with h0 | h0 | h0
  · -- negative total violation: some max violator freezes
    have hex2 : ∃ p ∈ clampAll (distributeStep cs ug l), p.2 < 0 ∧ p.1.frozen = false := by
      obtain ⟨x, hx, hxneg⟩ :=
        exists_neg_of_sum_neg ((clampAll (distributeStep cs ug l)).map Prod.snd) h0
      obtain ⟨p, hp, rfl⟩ := List.mem_map.mp hx
      refine ⟨p, hp, hxneg, ?_⟩
      obtain ⟨it, hit, rfl⟩ := mem_clampAll _ p hp
      rw [clampItem_frozen]
      exact clampItem_snd_ne_zero it (by omega)
    calc unfrozenCount _ < _ := freezeBySign_unfrozen_lt_of_neg _ _ h0 hex2
      _ = unfrozenCount l := hclcount
  · rw [h0, freezeBySign_unfrozen_zero]
    exact hpos
  · -- positive total violation: some min violator freezes
    have hex2 : ∃ p ∈ clampAll (distributeStep cs ug l), 0 < p.2 ∧ p.1.frozen = false := by
      obtain ⟨x, hx, hxpos⟩ :=
        exists_pos_of_sum_pos ((clampAll (distributeStep cs ug l)).map Prod.snd) h0
      obtain ⟨p, hp, rfl⟩ := List.mem_map.mp hx
      refine ⟨p, hp, hxpos, ?_⟩
      obtain ⟨it, hit, rfl⟩ := mem_clampAll _ p hp
      rw [clampItem_frozen]
      exact clampItem_snd_ne_zero it (by omega)
    calc unfrozenCount _ < _ := freezeBySign_unfrozen_lt_of_pos _ _ h0 hex2
      _ = unfrozenCount l := hclcount

lemma flexLoop_isSome (fuel : Nat) (cs : Int) (ug : Bool) (l : List WItem)
    (h : unfrozenCount l < fuel) : (flexLoop fuel cs ug l).isSome = true := by
  induction fuel generalizing l with
  | zero => omega
  | succ n ih =>
    unfold flexLoop
    by_cases hall : allFrozen l
    · simp [hall]
    · have hfalse : allFrozen l = false := by simpa using hall
      simp only [hfalse, Bool.false_eq_true, if_false]
      exact ih _ (by have := loopBody_unfrozen_lt cs ug l hfalse; omega)

/-! ## Totality of the resolver -/

lemma unfrozenCount_le_length (l : List WItem) : unfrozenCount l ≤ l.length :=
  List.countP_le_length _

lemma resolve_isSome (items : List Item) (cs : Int) :
    (ResolveFlexLengths items cs).isSome = true := by
  unfold ResolveFlexLengths
  by_cases hfast : sumHypo (prepItems items) = clampContainer cs
  · simp [hfast]
  · simp only [hfast, if_false]
    have h := flexLoop_isSome ((prepItems items).length + 1) (clampContainer cs)
      (decide (sumHypo (prepItems items) < clampContainer cs))
      ((prepItems items).map
        (sizeIfInflexible (decide (sumHypo (prepItems items) < clampContainer cs))))
      (by
        calc unfrozenCount _ ≤ _ := unfrozenCount_le_length _
          _ = (prepItems items).length := by simp
          _ < (prepItems items).length + 1 := Nat.lt_succ_self _)
    obtain ⟨fin, hfin⟩ := Option.isSome_iff_exists.mp h
    rw [hfin]
    rfl

lemma finalWItems_isSome (items : List Item) (cs : Int) :
    (finalWItems items cs).isSome = true := by
  unfold finalWItems
  by_cases hfast : sumHypo (prepItems items) = clampContainer cs
  · simp [hfast]
  · simp only [hfast, if_false]
    exact flexLoop_isSome ((prepItems items).length + 1) (clampContainer cs)
      (decide (sumHypo (prepItems items) < clampContainer cs))
      ((prepItems items).map
        (sizeIfInflexible (decide (sumHypo (prepItems items) < clampContainer cs))))
      (by
        calc unfrozenCount _ ≤ _ := unfrozenCount_le_length _
          _ = (prepItems items).length := by simp
          _ < (prepItems items).length + 1 := Nat.lt_succ_self _)

/-- `ResolveFlexLengths` projects the widths out of the final item states:
hypothetical main sizes on the fast path, target main sizes otherwise. -/
lemma resolve_eq_final (items : List Item) (cs : Int) :
    ResolveFlexLengths items cs = (finalWItems items cs).map
      (fun fs => if sumHypo (prepItems items) = clampContainer cs
        then fs.map WItem.hypoMainSize else fs.map WItem.targetMainSize) := by
  unfold ResolveFlexLengths finalWItems
  by_cases hfast : sumHypo (prepItems items) = clampContainer cs
  · simp [hfast]
  · simp only [hfast, if_false]
    cases hflex : flexLoop ((prepItems items).length + 1) (clampContainer cs)
        (decide (sumHypo (prepItems items) < clampContainer cs))
        ((prepItems items).map
          (sizeIfInflexible (decide (sumHypo (prepItems items) < clampContainer cs)))) with
    | none => simp
    | some fin => simp [hfast]

/-! ## Exported fields: preserved by everything after `Validate` -/

lemma sizeIfInflexible_persistent (ug : Bool) (it : WItem) :
    persistent (sizeIfInflexible ug it) = persistent it := by
  unfold sizeIfInflexible
  split_ifs <;> simp [persistent, wExported]

lemma prepItem_exported (x : Item) : wExported (prepItem x) = Validate x := by
  unfold prepItem determineHypoMainSize determineFlexBaseSize mkWItem wExported
  split_ifs <;> rfl

lemma map_exported_of_persistent (l l' : List WItem)
    (h : l'.map persistent = l.map persistent) : l'.map wExported = l.map wExported := by
  have := congrArg (List.map Prod.fst) h
  rwa [List.map_map, List.map_map] at this

lemma prepItems_exported (items : List Item) :
    (prepItems items).map wExported = items.map Validate := by
  unfold prepItems
  rw [List.map_map]
  exact List.map_congr_left fun x _ => prepItem_exported x

lemma initItems_persistent (items : List Item) (cs : Int) :
    (initItems items cs).map persistent = (prepItems items).map persistent := by
  unfold initItems
  rw [List.map_map]
  exact List.map_congr_left fun x _ => sizeIfInflexible_persistent _ x

lemma finalWItems_exported (items : List Item) (cs : Int) (fs : List WItem)
    (h : finalWItems items cs = some fs) : fs.map wExported = items.map Validate := by
  unfold finalWItems at h
  by_cases hfast : sumHypo (prepItems items) = clampContainer cs
  · rw [if_pos hfast, Option.some.injEq] at h
    rw [← h]
    exact prepItems_exported items
  · rw [if_neg hfast] at h
    have hp := flexLoop_persistent _ _ _ _ _ h
    have : ((prepItems items).map
        (sizeIfInflexible (decide (sumHypo (prepItems items) < clampContainer cs)))).map
          persistent = (prepItems items).map persistent := by
      rw [List.map_map]
      exact List.map_congr_left fun x _ => sizeIfInflexible_persistent _ x
    rw [this] at hp
    calc fs.map wExported = (prepItems items).map wExported :=
          map_exported_of_persistent _ _ hp
      _ = items.map Validate := prepItems_exported items

/-! ## The loop invariant: bounds for frozen items, positive weights for
unfrozen ones -/

/-- Well-formedness established by `Validate`: `Min ≥ 1` and, when
constrained, `Max ≥ Min`. -/
def WFcore (it : WItem) : Prop :=
  1 ≤ it.Min ∧ (it.Max = 0 ∨ it.Min ≤ it.Max)

/-- The target main size lies in `[Min, Max]` (no upper bound when
`Max = 0`). -/
def inBounds (it : WItem) : Prop :=
  it.Min ≤ it.targetMainSize ∧ (it.Max ≠ 0 → it.targetMainSize ≤ it.Max)

/-- Invariant maintained by every state of the distribution loop. -/
def LoopInv (ug : Bool) (it : WItem) : Prop :=
  WFcore it ∧ (it.frozen = true → inBounds it) ∧
    (it.frozen = false →
      (ug = true → 1 ≤ it.Grow) ∧ (ug = false → 1 ≤ it.Shrink ∧ 1 ≤ it.flexBaseSize))

/-- The clamp performed by `determineHypoMainSize`, as a function of the flex
base size and the bounds. -/
def hypoClamp (v mn mx : Int) : Int :=
  let h := if v < mn then mn else v
  if mx ≠ 0 ∧ mx < h then mx else h

lemma prepItem_eq (x : Item) :
    prepItem x =
      { Basis := (Validate x).Basis, Grow := (Validate x).Grow, Shrink := (Validate x).Shrink
        Size := (Validate x).Size, Min := (Validate x).Min, Max := (Validate x).Max
        flexBaseSize := if 0 ≤ (Validate x).Basis then (Validate x).Basis else (Validate x).Size
        hypoMainSize :=
          hypoClamp (if 0 ≤ (Validate x).Basis then (Validate x).Basis else (Validate x).Size)
            (Validate x).Min (Validate x).Max
        frozen := false, targetMainSize := 0 } := by
  unfold prepItem determineHypoMainSize determineFlexBaseSize mkWItem hypoClamp
  split_ifs <;> simp_all <;> (try (split_ifs <;> simp_all <;> omega))

lemma hypoClamp_bounds (v mn mx : Int) (h2 : mx = 0 ∨ mn ≤ mx) :
    mn ≤ hypoClamp v mn mx ∧ (mx ≠ 0 → hypoClamp v mn mx ≤ mx) := by
  unfold hypoClamp
  split_ifs <;> constructor <;> simp_all <;> omega

lemma prepItem_spec (x : Item) :
    1 ≤ (prepItem x).Min ∧
      ((prepItem x).Max = 0 ∨ (prepItem x).Min ≤ (prepItem x).Max) ∧
      (prepItem x).Min ≤ (prepItem x).hypoMainSize ∧
      ((prepItem x).Max ≠ 0 → (prepItem x).hypoMainSize ≤ (prepItem x).Max) ∧
      (prepItem x).frozen = false ∧ (prepItem x).targetMainSize = 0 ∧
      0 ≤ (prepItem x).Grow ∧ 0 ≤ (prepItem x).Shrink := by
  obtain ⟨h1, h2, h3, h4, h5, h6⟩ := Validate_post x
  rw [prepItem_eq]
  dsimp only
  have hmx : (Validate x).Max = 0 ∨ (Validate x).Min ≤ (Validate x).Max := by
    by_cases hz : (Validate x).Max = 0
    · exact Or.inl hz
    · exact Or.inr (h6 hz).1
  have hb := hypoClamp_bounds
    (if 0 ≤ (Validate x).Basis then (Validate x).Basis else (Validate x).Size)
    (Validate x).Min (Validate x).Max hmx
  refine ⟨h1, hmx, hb.1, hb.2, rfl, rfl, h2, h3⟩

lemma WItem_retarget_frozen (it : WItem) (t : Int) :
    ({ it with targetMainSize := t } : WItem).frozen = it.frozen := rfl

lemma LoopInv_retarget (ug : Bool) (it : WItem) (t : Int) (hinv : LoopInv ug it)
    (hfr : it.frozen = false) : LoopInv ug { it with targetMainSize := t } := by
  obtain ⟨hwf, _, hub⟩ := hinv
  refine ⟨hwf, fun hf => ?_, fun _ => hub hfr⟩
  rw [WItem_retarget_frozen, hfr] at hf
  cases hf

lemma LoopInv_freeze (ug : Bool) (it : WItem) (hinv : LoopInv ug it) (hb : inBounds it) :
    LoopInv ug { it with frozen := true } := by
  obtain ⟨hwf, _, _⟩ := hinv
  exact ⟨hwf, fun _ => hb, fun hf => by cases hf⟩

lemma mem_distributeGrow (R S : Int) (l : List WItem) (it' : WItem)
    (h : it' ∈ distributeGrow R S l) :
    ∃ it ∈ l, it' = it ∨
      (it.frozen = false ∧ it' = { it with targetMainSize := it'.targetMainSize }) := by
  induction l generalizing R S with
  | nil => simp [distributeGrow] at h
  | cons a rest ih =>
    unfold distributeGrow at h
    by_cases hf : a.frozen
    · rw [if_pos hf] at h
      rcases List.mem_cons.mp h with rfl | hrest
      · exact ⟨it', by simp, Or.inl rfl⟩
      · obtain ⟨it, hit, hor⟩ := ih _ _ hrest
        exact ⟨it, by simp [hit], hor⟩
    · rw [if_neg hf] at h
      rcases List.mem_cons.mp h with rfl | hrest
      · refine ⟨a, by simp, Or.inr ⟨by simpa using hf, rfl⟩⟩
      · obtain ⟨it, hit, hor⟩ := ih _ _ hrest
        exact ⟨it, by simp [hit], hor⟩

lemma mem_distributeShrink (R S : Int) (l : List WItem) (it' : WItem)
    (h : it' ∈ distributeShrink R S l) :
    ∃ it ∈ l, it' = it ∨
      (it.frozen = false ∧ it' = { it with targetMainSize := it'.targetMainSize }) := by
  induction l generalizing R S with
  | nil => simp [distributeShrink] at h
  | cons a rest ih =>
    unfold distributeShrink at h
    by_cases hf : a.frozen
    · rw [if_pos hf] at h
      rcases List.mem_cons.mp h with rfl | hrest
      · exact ⟨it', by simp, Or.inl rfl⟩
      · obtain ⟨it, hit, hor⟩ := ih _ _ hrest
        exact ⟨it, by simp [hit], hor⟩
    · rw [if_neg hf] at h
      rcases List.mem_cons.mp h with rfl | hrest
      · refine ⟨a, by simp, Or.inr ⟨by simpa using hf, rfl⟩⟩
      · obtain ⟨it, hit, hor⟩ := ih _ _ hrest
        exact ⟨it, by simp [hit], hor⟩

lemma mem_distributeStep (cs : Int) (ug : Bool) (l : List WItem) (it' : WItem)
    (h : it' ∈ distributeStep cs ug l) :
    ∃ it ∈ l, it' = it ∨
      (it.frozen = false ∧ it' = { it with targetMainSize := it'.targetMainSize }) := by
  unfold distributeStep at h
  by_cases h0 : remainingFree cs l ≠ 0
  · rw [if_pos h0] at h
    cases ug with
    | true => exact mem_distributeGrow _ _ l it' h
    | false => exact mem_distributeShrink _ _ l it' h
  · rw [if_neg h0] at h
    exact ⟨it', h, Or.inl rfl⟩

lemma distributeStep_loopInv (cs : Int) (ug : Bool) (l : List WItem)
    (h : ∀ it ∈ l, LoopInv ug it) : ∀ it' ∈ distributeStep cs ug l, LoopInv ug it' := by
  intro it' hmem
  obtain ⟨it, hit, hor⟩ := mem_distributeStep cs ug l it' hmem
  rcases hor with heq | ⟨hfr, heq⟩
  · rw [heq]
    exact h it hit
  · rw [heq]
    exact LoopInv_retarget ug it _ (h it hit) hfr

lemma clampItem_fst_retarget (it : WItem) :
    (clampItem it).1 = { it with targetMainSize := (clampItem it).1.targetMainSize } := by
  unfold clampItem
  split_ifs <;> rfl

lemma clampItem_fst_inBounds (it : WItem) (hwf : WFcore it) (hfr : it.frozen = false) :
    inBounds (clampItem it).1 := by
  obtain ⟨h1, h2⟩ := hwf
  unfold clampItem inBounds
  split_ifs with hf hmin hmax
  · rw [hfr] at hf
    cases hf
  · dsimp only
    constructor
    · omega
    · intro hne
      rcases h2 with h2 | h2
      · exact absurd h2 hne
      · omega
  · dsimp only
    constructor
    · rcases h2 with h2 | h2
      · exact absurd h2 hmax.1
      · omega
    · intro _
      omega
  · dsimp only
    constructor
    · omega
    · intro hne
      rcases not_and_or.mp hmax with hc | hc
      · exact absurd hne (by simpa using hc)
      · omega

lemma mem_freezeBySign (tv : Int) (cl : List (WItem × Int)) (it' : WItem)
    (h : it' ∈ freezeBySign tv cl) :
    ∃ p ∈ cl, it' = p.1 ∨ it' = { p.1 with frozen := true } := by
  unfold freezeBySign at h
  split_ifs at h <;> obtain ⟨p, hp, rfl⟩ := List.mem_map.mp h
  · exact ⟨p, hp, Or.inr rfl⟩
  · by_cases h2 : 0 < p.2
    · exact ⟨p, hp, Or.inr (by rw [if_pos h2])⟩
    · exact ⟨p, hp, Or.inl (by rw [if_neg h2])⟩
  · by_cases h2 : p.2 < 0
    · exact ⟨p, hp, Or.inr (by rw [if_pos h2])⟩
    · exact ⟨p, hp, Or.inl (by rw [if_neg h2])⟩

lemma clampItem_fst_loopInv (ug : Bool) (it : WItem) (hinv : LoopInv ug it) :
    LoopInv ug (clampItem it).1 := by
  by_cases hfr : it.frozen
  · rw [clampItem_of_frozen it hfr]
    exact hinv
  · rw [clampItem_fst_retarget it]
    exact LoopInv_retarget ug it _ hinv (by simpa using hfr)

lemma clampItem_fst_loopInv_inBounds (ug : Bool) (it : WItem) (hinv : LoopInv ug it) :
    inBounds (clampItem it).1 := by
  by_cases hfr : it.frozen
  · rw [clampItem_of_frozen it hfr]
    exact hinv.2.1 hfr
  · exact clampItem_fst_inBounds it hinv.1 (by simpa using hfr)

lemma loopBody_loopInv (cs : Int) (ug : Bool) (l : List WItem)
    (h : ∀ it ∈ l, LoopInv ug it) : ∀ it' ∈ loopBody cs ug l, LoopInv ug it' := by
  intro it'' hmem
  have hd := distributeStep_loopInv cs ug l h
  obtain ⟨p, hp, hor⟩ := mem_freezeBySign _ _ _ hmem
  obtain ⟨it, hit, rfl⟩ := mem_clampAll _ p hp
  rcases hor with rfl | rfl
  · exact clampItem_fst_loopInv ug it (hd it hit)
  · exact LoopInv_freeze ug _ (clampItem_fst_loopInv ug it (hd it hit))
      (clampItem_fst_loopInv_inBounds ug it (hd it hit))

lemma flexLoop_loopInv (fuel : Nat) (cs : Int) (ug : Bool) (l fin : List WItem)
    (h : flexLoop fuel cs ug l = some fin) (hinv : ∀ it ∈ l, LoopInv ug it) :
    ∀ it ∈ fin, LoopInv ug it := by
  induction fuel generalizing l with
  | zero => simp [flexLoop] at h
  | succ n ih =>
    unfold flexLoop at h
    split_ifs at h with hall
    · cases h
      exact hinv
    · exact ih _ h (loopBody_loopInv cs ug l hinv)

lemma prepItem_Min (x : Item) : (prepItem x).Min = (Validate x).Min := by
  rw [prepItem_eq]

lemma prepItem_Max (x : Item) : (prepItem x).Max = (Validate x).Max := by
  rw [prepItem_eq]

lemma initItems_loopInv (items : List Item) (cs : Int) :
    ∀ it ∈ initItems items cs, LoopInv (useGrowOf items cs) it := by
  intro it hmem
  unfold initItems at hmem
  obtain ⟨w, hw, rfl⟩ := List.mem_map.mp hmem
  unfold prepItems at hw
  obtain ⟨x, hx, rfl⟩ := List.mem_map.mp hw
  obtain ⟨p1, p2, p3, p4, p5, p6, p7, p8⟩ := prepItem_spec x
  cases hug : useGrowOf items cs with
  | true =>
    unfold sizeIfInflexible
    rw [if_pos rfl]
    by_cases hc : (prepItem x).Grow = 0 ∨ (prepItem x).hypoMainSize < (prepItem x).flexBaseSize
    · rw [if_pos hc]
      exact ⟨⟨p1, p2⟩, fun _ => ⟨p3, p4⟩, fun hf => by simp at hf⟩
    · rw [if_neg hc]
      push_neg at hc
      refine ⟨⟨p1, p2⟩, fun hf => ?_, fun _ => ⟨fun _ => by omega, fun hfa => by simp at hfa⟩⟩
      rw [p5] at hf
      simp at hf
  | false =>
    unfold sizeIfInflexible
    rw [if_neg (by simp)]
    by_cases hc : (prepItem x).Shrink = 0 ∨ (prepItem x).flexBaseSize < (prepItem x).hypoMainSize
    · rw [if_pos hc]
      exact ⟨⟨p1, p2⟩, fun _ => ⟨p3, p4⟩, fun hf => by simp at hf⟩
    · rw [if_neg hc]
      push_neg at hc
      refine ⟨⟨p1, p2⟩, fun hf => ?_, fun _ => ⟨fun hfa => by simp at hfa, fun _ => ?_⟩⟩
      · rw [p5] at hf
        simp at hf
      · obtain ⟨hs, hfb⟩ := hc
        constructor
        · omega
        · omega

lemma loopStateAt_loopInv (items : List Item) (cs : Int) (k : Nat) :
    ∀ it ∈ loopStateAt items cs k, LoopInv (useGrowOf items cs) it := by
  induction k with
  | zero => simpa [loopStateAt] using initItems_loopInv items cs
  | succ n ih =>
    unfold loopStateAt at ih ⊢
    rw [Function.iterate_succ_apply']
    exact loopBody_loopInv _ _ _ ih

lemma sum_pos_of_mem (l : List Int) (h0 : ∀ x ∈ l, 0 ≤ x) (x : Int) (hx : x ∈ l)
    (hxpos : 0 < x) : 0 < l.sum := by
  induction l with
  | nil => simp at hx
  | cons a t ih =>
    simp only [List.sum_cons]
    have ha := h0 a (by simp)
    rcases List.mem_cons.mp hx with rfl | hxt
    · have := sum_nonneg_int t fun y hy => h0 y (by simp [hy])
      omega
    · have := ih (fun y hy => h0 y (by simp [hy])) hxt
      omega

lemma sumUnfrozenGrowFactors_pos (l : List WItem)
    (hinv : ∀ it ∈ l, LoopInv true it) (hex : ∃ it ∈ l, it.frozen = false) :
    0 < sumUnfrozenGrowFactors l := by
  obtain ⟨w, hw, hwf⟩ := hex
  unfold sumUnfrozenGrowFactors
  refine sum_pos_of_mem _ ?_ (if w.frozen then 0 else w.Grow) (List.mem_map_of_mem _ hw) ?_
  · intro x hx
    obtain ⟨it, hit, rfl⟩ := List.mem_map.mp hx
    by_cases hf : it.frozen
    · simp [hf]
    · have h1 := ((hinv it hit).2.2 (by simpa using hf)).1 rfl
      simp only [hf, Bool.false_eq_true, if_false]
      omega
  · have h1 := ((hinv w hw).2.2 hwf).1 rfl
    rw [hwf]
    simpa using by omega

lemma sumScaledShrinks_pos (l : List WItem)
    (hinv : ∀ it ∈ l, LoopInv false it) (hex : ∃ it ∈ l, it.frozen = false) :
    0 < sumScaledShrinks l := by
  obtain ⟨w, hw, hwf⟩ := hex
  unfold sumScaledShrinks
  refine sum_pos_of_mem _ ?_ (if w.frozen then 0 else scaledShrink w)
    (List.mem_map_of_mem _ hw) ?_
  · intro x hx
    obtain ⟨it, hit, rfl⟩ := List.mem_map.mp hx
    by_cases hf : it.frozen
    · simp [hf]
    · have h1 := ((hinv it hit).2.2 (by simpa using hf)).2 rfl
      simp only [hf, Bool.false_eq_true, if_false]
      unfold scaledShrink
      have := mul_pos (show (0 : Int) < it.Shrink by omega)
        (show (0 : Int) < it.flexBaseSize by omega)
      omega
  · have h1 := ((hinv w hw).2.2 hwf).2 rfl
    rw [hwf]
    simp only [Bool.false_eq_true, if_false]
    unfold scaledShrink
    have := mul_pos (show (0 : Int) < w.Shrink by omega)
      (show (0 : Int) < w.flexBaseSize by omega)
    omega

/-! ## Conservation: the remaining-pool distribution sums exactly -/

/-- Sum of target main sizes over frozen items. -/
def frozenTargetSum (l : List WItem) : Int :=
  (l.map (fun it => if it.frozen then it.targetMainSize else 0)).sum

/-- Sum of target main sizes over unfrozen items. -/
def unfrozenTargetSum (l : List WItem) : Int :=
  (l.map (fun it => if it.frozen then 0 else it.targetMainSize)).sum

/-- Sum of flex base sizes over unfrozen items. -/
def unfrozenFbsSum (l : List WItem) : Int :=
  (l.map (fun it => if it.frozen then 0 else it.flexBaseSize)).sum

lemma contribution_sum_split (l : List WItem) :
    (l.map contribution).sum = frozenTargetSum l + unfrozenFbsSum l := by
  induction l with
  | nil => simp [frozenTargetSum, unfrozenFbsSum]
  | cons a t ih =>
    unfold frozenTargetSum unfrozenFbsSum contribution at *
    simp only [List.map_cons, List.sum_cons]
    by_cases hf : a.frozen <;> simp only [hf, if_true, Bool.false_eq_true, if_false] <;> omega

lemma target_sum_split (l : List WItem) :
    (l.map WItem.targetMainSize).sum = frozenTargetSum l + unfrozenTargetSum l := by
  induction l with
  | nil => simp [frozenTargetSum, unfrozenTargetSum]
  | cons a t ih =>
    unfold frozenTargetSum unfrozenTargetSum at *
    simp only [List.map_cons, List.sum_cons]
    by_cases hf : a.frozen <;> simp only [hf, if_true, Bool.false_eq_true, if_false] <;> omega

lemma sumUnfrozenGrowFactors_cons (a : WItem) (t : List WItem) :
    sumUnfrozenGrowFactors (a :: t)
      = (if a.frozen then 0 else a.Grow) + sumUnfrozenGrowFactors t := by
  unfold sumUnfrozenGrowFactors
  simp

lemma sumScaledShrinks_cons (a : WItem) (t : List WItem) :
    sumScaledShrinks (a :: t)
      = (if a.frozen then 0 else scaledShrink a) + sumScaledShrinks t := by
  unfold sumScaledShrinks
  simp

lemma unfrozenTargetSum_cons (a : WItem) (t : List WItem) :
    unfrozenTargetSum (a :: t)
      = (if a.frozen then 0 else a.targetMainSize) + unfrozenTargetSum t := by
  unfold unfrozenTargetSum
  simp

lemma unfrozenFbsSum_cons (a : WItem) (t : List WItem) :
    unfrozenFbsSum (a :: t)
      = (if a.frozen then 0 else a.flexBaseSize) + unfrozenFbsSum t := by
  unfold unfrozenFbsSum
  simp

lemma frozenTargetSum_cons (a : WItem) (t : List WItem) :
    frozenTargetSum (a :: t)
      = (if a.frozen then a.targetMainSize else 0) + frozenTargetSum t := by
  unfold frozenTargetSum
  simp

lemma sumUnfrozenGrowFactors_all_frozen (l : List WItem) (h : ∀ it ∈ l, it.frozen = true) :
    sumUnfrozenGrowFactors l = 0 := by
  induction l with
  | nil => rfl
  | cons a t ih =>
    rw [sumUnfrozenGrowFactors_cons, if_pos (h a (by simp)),
      ih fun it hit => h it (by simp [hit])]
    omega

lemma sumScaledShrinks_all_frozen (l : List WItem) (h : ∀ it ∈ l, it.frozen = true) :
    sumScaledShrinks l = 0 := by
  induction l with
  | nil => rfl
  | cons a t ih =>
    rw [sumScaledShrinks_cons, if_pos (h a (by simp)),
      ih fun it hit => h it (by simp [hit])]
    omega

lemma unfrozenTargetSum_all_frozen (l : List WItem) (h : ∀ it ∈ l, it.frozen = true) :
    unfrozenTargetSum l = 0 := by
  induction l with
  | nil => rfl
  | cons a t ih =>
    rw [unfrozenTargetSum_cons, if_pos (h a (by simp)),
      ih fun it hit => h it (by simp [hit])]
    omega

lemma unfrozenFbsSum_all_frozen (l : List WItem) (h : ∀ it ∈ l, it.frozen = true) :
    unfrozenFbsSum l = 0 := by
  induction l with
  | nil => rfl
  | cons a t ih =>
    rw [unfrozenFbsSum_cons, if_pos (h a (by simp)),
      ih fun it hit => h it (by simp [hit])]
    omega

lemma distributeGrow_all_frozen (R S : Int) (l : List WItem)
    (h : ∀ it ∈ l, it.frozen = true) : ∀ it' ∈ distributeGrow R S l, it'.frozen = true := by
  intro it' hmem
  obtain ⟨it, hit, hor⟩ := mem_distributeGrow R S l it' hmem
  rcases hor with heq | ⟨hfr, _⟩
  · rw [heq]
    exact h it hit
  · rw [h it hit] at hfr
    cases hfr

lemma distributeShrink_all_frozen (R S : Int) (l : List WItem)
    (h : ∀ it ∈ l, it.frozen = true) : ∀ it' ∈ distributeShrink R S l, it'.frozen = true := by
  intro it' hmem
  obtain ⟨it, hit, hor⟩ := mem_distributeShrink R S l it' hmem
  rcases hor with heq | ⟨hfr, _⟩
  · rw [heq]
    exact h it hit
  · rw [h it hit] at hfr
    cases hfr

lemma distributeGrow_frozenTargetSum (R S : Int) (l : List WItem) :
    frozenTargetSum (distributeGrow R S l) = frozenTargetSum l := by
  induction l generalizing R S with
  | nil => rfl
  | cons a t ih =>
    unfold distributeGrow
    by_cases hf : a.frozen
    · rw [if_pos hf, frozenTargetSum_cons, frozenTargetSum_cons, ih]
    · rw [if_neg hf, frozenTargetSum_cons, frozenTargetSum_cons, ih]
      have hfa : a.frozen = false := by simpa using hf
      simp [hfa]

lemma distributeShrink_frozenTargetSum (R S : Int) (l : List WItem) :
    frozenTargetSum (distributeShrink R S l) = frozenTargetSum l := by
  induction l generalizing R S with
  | nil => rfl
  | cons a t ih =>
    unfold distributeShrink
    by_cases hf : a.frozen
    · rw [if_pos hf, frozenTargetSum_cons, frozenTargetSum_cons, ih]
    · rw [if_neg hf, frozenTargetSum_cons, frozenTargetSum_cons, ih]
      have hfa : a.frozen = false := by simpa using hf
      simp [hfa]

lemma distributeGrow_cons_frozen (R S : Int) (a : WItem) (t : List WItem)
    (hf : a.frozen = true) : distributeGrow R S (a :: t) = a :: distributeGrow R S t := by
  simp only [distributeGrow, hf, if_true]

lemma distributeGrow_cons_unfrozen (R S : Int) (a : WItem) (t : List WItem)
    (hf : a.frozen = false) :
    distributeGrow R S (a :: t)
      = { a with targetMainSize := a.flexBaseSize + Int.tdiv (R * a.Grow) S } ::
          distributeGrow (R - Int.tdiv (R * a.Grow) S) (S - a.Grow) t := by
  simp only [distributeGrow, hf, Bool.false_eq_true, if_false]

lemma distributeShrink_cons_frozen (R S : Int) (a : WItem) (t : List WItem)
    (hf : a.frozen = true) : distributeShrink R S (a :: t) = a :: distributeShrink R S t := by
  simp only [distributeShrink, hf, if_true]

lemma distributeShrink_cons_unfrozen (R S : Int) (a : WItem) (t : List WItem)
    (hf : a.frozen = false) :
    distributeShrink R S (a :: t)
      = { a with targetMainSize := a.flexBaseSize + Int.tdiv (R * scaledShrink a) S } ::
          distributeShrink (R - Int.tdiv (R * scaledShrink a) S) (S - scaledShrink a) t := by
  simp only [distributeShrink, hf, Bool.false_eq_true, if_false]

lemma retarget_frozen_eq (a : WItem) (t : Int) :
    ({ a with targetMainSize := t } : WItem).frozen = a.frozen := rfl

/-- The remaining-pool growing pass distributes exactly `R`: the unfrozen
targets sum to the unfrozen flex base sizes plus the whole remaining free
space, despite truncating division (the last unfrozen item absorbs the
remainder). -/
lemma distributeGrow_target_sum (l : List WItem) (R : Int)
    (hw : ∀ it ∈ l, it.frozen = false → 1 ≤ it.Grow)
    (hex : ∃ it ∈ l, it.frozen = false) :
    unfrozenTargetSum (distributeGrow R (sumUnfrozenGrowFactors l) l)
      = unfrozenFbsSum l + R := by
  induction l generalizing R with
  | nil => simp at hex
  | cons a t ih =>
    by_cases hf : a.frozen = true
    · have hS : sumUnfrozenGrowFactors (a :: t) = sumUnfrozenGrowFactors t := by
        rw [sumUnfrozenGrowFactors_cons, if_pos hf]
        omega
      rw [distributeGrow_cons_frozen _ _ _ _ hf, hS, unfrozenTargetSum_cons, if_pos hf,
        unfrozenFbsSum_cons, if_pos hf]
      have hext : ∃ it ∈ t, it.frozen = false := by
        obtain ⟨w, hwmem, hwf⟩ := hex
        rcases List.mem_cons.mp hwmem with rfl | hwt
        · rw [hf] at hwf
          cases hwf
        · exact ⟨w, hwt, hwf⟩
      rw [ih R (fun it hit hfr => hw it (by simp [hit]) hfr) hext]
      omega
    · have hfa : a.frozen = false := by simpa using hf
      have hS : sumUnfrozenGrowFactors (a :: t) = a.Grow + sumUnfrozenGrowFactors t := by
        rw [sumUnfrozenGrowFactors_cons, if_neg hf]
      by_cases hrest : ∃ it ∈ t, it.frozen = false
      · have hS2 : sumUnfrozenGrowFactors (a :: t) - a.Grow = sumUnfrozenGrowFactors t := by
          omega
        rw [distributeGrow_cons_unfrozen _ _ _ _ hfa, unfrozenTargetSum_cons,
          retarget_frozen_eq, if_neg hf, hS2,
          ih _ (fun it hit hfr => hw it (by simp [hit]) hfr) hrest,
          unfrozenFbsSum_cons, if_neg hf]
        dsimp only
        omega
      · push_neg at hrest
        have hallt : ∀ it ∈ t, it.frozen = true := fun it hit => by
          have := hrest it hit
          simpa using this
        have hSt : sumUnfrozenGrowFactors t = 0 := sumUnfrozenGrowFactors_all_frozen t hallt
        have hS1 : sumUnfrozenGrowFactors (a :: t) = a.Grow := by omega
        have hg : 1 ≤ a.Grow := hw a (by simp) hfa
        have hdiv : Int.tdiv (R * a.Grow) a.Grow = R := Int.mul_tdiv_cancel R (by omega)
        rw [distributeGrow_cons_unfrozen _ _ _ _ hfa, hS1, hdiv, unfrozenTargetSum_cons,
          retarget_frozen_eq, if_neg hf]
        have hz : unfrozenTargetSum (distributeGrow (R - R) (a.Grow - a.Grow) t) = 0 :=
          unfrozenTargetSum_all_frozen _ (distributeGrow_all_frozen _ _ t hallt)
        rw [hz, unfrozenFbsSum_cons, if_neg hf, unfrozenFbsSum_all_frozen t hallt]
        dsimp only
        omega

/-- The shrinking pass distributes exactly `R`, with scaled-shrink weights. -/
lemma distributeShrink_target_sum (l : List WItem) (R : Int)
    (hw : ∀ it ∈ l, it.frozen = false → 1 ≤ scaledShrink it)
    (hex : ∃ it ∈ l, it.frozen = false) :
    unfrozenTargetSum (distributeShrink R (sumScaledShrinks l) l)
      = unfrozenFbsSum l + R := by
  induction l generalizing R with
  | nil => simp at hex
  | cons a t ih =>
    by_cases hf : a.frozen = true
    · have hS : sumScaledShrinks (a :: t) = sumScaledShrinks t := by
        rw [sumScaledShrinks_cons, if_pos hf]
        omega
      rw [distributeShrink_cons_frozen _ _ _ _ hf, hS, unfrozenTargetSum_cons, if_pos hf,
        unfrozenFbsSum_cons, if_pos hf]
      have hext : ∃ it ∈ t, it.frozen = false := by
        obtain ⟨w, hwmem, hwf⟩ := hex
        rcases List.mem_cons.mp hwmem with rfl | hwt
        · rw [hf] at hwf
          cases hwf
        · exact ⟨w, hwt, hwf⟩
      rw [ih R (fun it hit hfr => hw it (by simp [hit]) hfr) hext]
      omega
    · have hfa : a.frozen = false := by simpa using hf
      have hS : sumScaledShrinks (a :: t) = scaledShrink a + sumScaledShrinks t := by
        rw [sumScaledShrinks_cons, if_neg hf]
      by_cases hrest : ∃ it ∈ t, it.frozen = false
      · have hS2 : sumScaledShrinks (a :: t) - scaledShrink a = sumScaledShrinks t := by
          omega
        rw [distributeShrink_cons_unfrozen _ _ _ _ hfa, unfrozenTargetSum_cons,
          retarget_frozen_eq, if_neg hf, hS2,
          ih _ (fun it hit hfr => hw it (by simp [hit]) hfr) hrest,
          unfrozenFbsSum_cons, if_neg hf]
        dsimp only
        omega
      · push_neg at hrest
        have hallt : ∀ it ∈ t, it.frozen = true := fun it hit => by
          have := hrest it hit
          simpa using this
        have hSt : sumScaledShrinks t = 0 := sumScaledShrinks_all_frozen t hallt
        have hS1 : sumScaledShrinks (a :: t) = scaledShrink a := by omega
        have hg : 1 ≤ scaledShrink a := hw a (by simp) hfa
        have hdiv : Int.tdiv (R * scaledShrink a) (scaledShrink a) = R :=
          Int.mul_tdiv_cancel R (by omega)
        rw [distributeShrink_cons_unfrozen _ _ _ _ hfa, hS1, hdiv, unfrozenTargetSum_cons,
          retarget_frozen_eq, if_neg hf]
        have hz : unfrozenTargetSum (distributeShrink (R - R)
            (scaledShrink a - scaledShrink a) t) = 0 :=
          unfrozenTargetSum_all_frozen _ (distributeShrink_all_frozen _ _ t hallt)
        rw [hz, unfrozenFbsSum_cons, if_neg hf, unfrozenFbsSum_all_frozen t hallt]
        dsimp only
        omega

lemma clampItem_snd_zero_fst (it : WItem) (h : (clampItem it).2 = 0) : (clampItem it).1 = it := by
  obtain ⟨b, g, s, sz, mn, mx, fbs, hms, fr, t⟩ := it
  unfold clampItem at h ⊢
  split_ifs at h ⊢ with h1 h2 h3
  · rfl
  · dsimp only at h ⊢
    simp only [WItem.mk.injEq, true_and, and_true]
    omega
  · dsimp only at h ⊢
    simp only [WItem.mk.injEq, true_and, and_true]
    omega
  · rfl

lemma iterViolation_false (cs : Int) (ug : Bool) (l : List WItem)
    (h : iterViolation cs ug l = false) :
    ∀ p ∈ clampAll (distributeStep cs ug l), p.2 = 0 := by
  unfold iterViolation at h
  intro p hp
  have := List.any_eq_false.mp h p hp
  simpa using this

/-- If an iteration starts with some unfrozen item whose target is still the
zero value, and its clamp pass records no violation, then it freezes every
item and the frozen targets sum exactly to the container size. -/
lemma loopBody_of_noViolation (cs : Int) (ug : Bool) (l : List WItem)
    (hinv : ∀ it ∈ l, LoopInv ug it)
    (htz : ∀ it ∈ l, it.frozen = false → it.targetMainSize = 0)
    (hex : ∃ it ∈ l, it.frozen = false)
    (hnov : iterViolation cs ug l = false) :
    allFrozen (loopBody cs ug l) = true ∧
      ((loopBody cs ug l).map WItem.targetMainSize).sum = cs := by
  have hsnd := iterViolation_false cs ug l hnov
  have htv : totalViolation (clampAll (distributeStep cs ug l)) = 0 := by
    unfold totalViolation
    apply List.sum_eq_zero
    intro x hx
    obtain ⟨p, hp, rfl⟩ := List.mem_map.mp hx
    exact hsnd p hp
  have hfst : (clampAll (distributeStep cs ug l)).map Prod.fst = distributeStep cs ug l := by
    unfold clampAll
    rw [List.map_map]
    have hcongr : ∀ it ∈ distributeStep cs ug l, (Prod.fst ∘ clampItem) it = id it := by
      intro it hit
      exact clampItem_snd_zero_fst it (hsnd _ (List.mem_map_of_mem _ hit))
    rw [List.map_congr_left hcongr, List.map_id]
  have hbody : loopBody cs ug l
      = (clampAll (distributeStep cs ug l)).map (fun p => { p.1 with frozen := true }) := by
    show freezeBySign (totalViolation (clampAll (distributeStep cs ug l)))
        (clampAll (distributeStep cs ug l)) = _
    rw [htv]
    unfold freezeBySign
    rw [if_pos rfl]
  constructor
  · rw [hbody]
    unfold allFrozen
    rw [List.all_eq_true]
    intro x hx
    obtain ⟨p, hp, rfl⟩ := List.mem_map.mp hx
    rfl
  · have hmaps : (loopBody cs ug l).map WItem.targetMainSize
        = (distributeStep cs ug l).map WItem.targetMainSize := by
      calc (loopBody cs ug l).map WItem.targetMainSize
          = (clampAll (distributeStep cs ug l)).map
              (fun p => WItem.targetMainSize p.1) := by
            rw [hbody, List.map_map]
            rfl
        _ = ((clampAll (distributeStep cs ug l)).map Prod.fst).map WItem.targetMainSize := by
            rw [List.map_map]
            rfl
        _ = (distributeStep cs ug l).map WItem.targetMainSize := by rw [hfst]
    rw [hmaps]
    by_cases hR : remainingFree cs l = 0
    · exfalso
      obtain ⟨w, hwmem, hwf⟩ := hex
      have hd0 : distributeStep cs ug l = l := by
        unfold distributeStep
        rw [if_neg (not_not_intro hR)]
      have hw0 := htz w hwmem hwf
      have h1 := (hinv w hwmem).1.1
      have hsndw := hsnd (clampItem w) (by rw [hd0]; exact List.mem_map_of_mem _ hwmem)
      unfold clampItem at hsndw
      rw [if_neg (by simp [hwf]), if_pos (by omega)] at hsndw
      dsimp only at hsndw
      omega
    · have hcontrib := contribution_sum_split l
      have hRval : remainingFree cs l = cs - (frozenTargetSum l + unfrozenFbsSum l) := by
        unfold remainingFree
        omega
      cases hug : ug with
      | true =>
        rw [← hug]
        have hd : distributeStep cs ug l
            = distributeGrow (remainingFree cs l) (sumUnfrozenGrowFactors l) l := by
          show (if remainingFree cs l ≠ 0 then
              if ug = true then distributeGrow (remainingFree cs l) (sumUnfrozenGrowFactors l) l
              else distributeShrink (remainingFree cs l) (sumScaledShrinks l) l
            else l) = _
          rw [if_pos hR, hug, if_pos rfl]
        have hw : ∀ it ∈ l, it.frozen = false → 1 ≤ it.Grow := by
          intro it hit hfr
          have := ((hinv it hit).2.2 hfr).1
          rw [hug] at this
          exact this rfl
        have hsum := distributeGrow_target_sum l (remainingFree cs l) hw hex
        have hfts := distributeGrow_frozenTargetSum (remainingFree cs l)
          (sumUnfrozenGrowFactors l) l
        rw [hd, target_sum_split, hfts, hsum]
        omega
      | false =>
        rw [show (false : Bool) = ug from hug.symm]
        have hd : distributeStep cs ug l
            = distributeShrink (remainingFree cs l) (sumScaledShrinks l) l := by
          show (if remainingFree cs l ≠ 0 then
              if ug = true then distributeGrow (remainingFree cs l) (sumUnfrozenGrowFactors l) l
              else distributeShrink (remainingFree cs l) (sumScaledShrinks l) l
            else l) = _
          rw [if_pos hR, hug, if_neg (by simp)]
        have hw : ∀ it ∈ l, it.frozen = false → 1 ≤ scaledShrink it := by
          intro it hit hfr
          have hsc := ((hinv it hit).2.2 hfr).2
          rw [hug] at hsc
          obtain ⟨hs, hb⟩ := hsc rfl
          unfold scaledShrink
          have := mul_pos (show (0 : Int) < it.Shrink by omega)
            (show (0 : Int) < it.flexBaseSize by omega)
          omega
        have hsum := distributeShrink_target_sum l (remainingFree cs l) hw hex
        have hfts := distributeShrink_frozenTargetSum (remainingFree cs l)
          (sumScaledShrinks l) l
        rw [hd, target_sum_split, hfts, hsum]
        omega

/-! ## Monotonicity of one distribution pass -/

lemma sumUnfrozenGrowFactors_nonneg (l : List WItem)
    (h : ∀ it ∈ l, it.frozen = false → 0 ≤ it.Grow) : 0 ≤ sumUnfrozenGrowFactors l := by
  unfold sumUnfrozenGrowFactors
  apply sum_nonneg_int
  intro x hx
  obtain ⟨it, hit, rfl⟩ := List.mem_map.mp hx
  by_cases hf : it.frozen
  · simp [hf]
  · have := h it hit (by simpa using hf)
    simpa [hf] using this

lemma sumScaledShrinks_nonneg (l : List WItem)
    (h : ∀ it ∈ l, it.frozen = false → 0 ≤ scaledShrink it) : 0 ≤ sumScaledShrinks l := by
  unfold sumScaledShrinks
  apply sum_nonneg_int
  intro x hx
  obtain ⟨it, hit, rfl⟩ := List.mem_map.mp hx
  by_cases hf : it.frozen
  · simp [hf]
  · have := h it hit (by simpa using hf)
    simpa [hf] using this

lemma tdiv_step_facts (R S g : Int) (hR : 0 ≤ R) (hg : 1 ≤ g) (hgS : g ≤ S) :
    0 ≤ Int.tdiv (R * g) S ∧ Int.tdiv (R * g) S ≤ R ∧ Int.tdiv (R * g) S * S ≤ R * g := by
  have hS : 0 < S := by omega
  have hnum : 0 ≤ R * g := mul_nonneg hR (by omega)
  rw [Int.tdiv_eq_ediv hnum (by omega)]
  refine ⟨Int.ediv_nonneg hnum (by omega), ?_, ?_⟩
  · calc R * g / S ≤ R * S / S := Int.ediv_le_ediv hS (mul_le_mul_of_nonneg_left hgS hR)
      _ = R := Int.mul_ediv_cancel R (by omega)
  · exact Int.ediv_mul_le (R * g) (by omega)

lemma le_tdiv_of_key (R S w s₀ : Int) (hR : 0 ≤ R) (hS : 0 < S) (hw : 0 ≤ w)
    (hkey : s₀ * S ≤ R * w) : s₀ ≤ Int.tdiv (R * w) S := by
  rw [Int.tdiv_eq_ediv (mul_nonneg hR hw) (by omega)]
  exact (Int.le_ediv_iff_mul_le hS).mpr hkey

lemma ratio_step (R S g s₀ g₀ : Int) (hR : 0 ≤ R) (hg : 1 ≤ g) (hgS : g ≤ S)
    (h0 : 0 ≤ s₀) (hg0 : 0 ≤ g₀) (hkey : s₀ * S ≤ R * g₀) :
    s₀ * (S - g) ≤ (R - Int.tdiv (R * g) S) * g₀ := by
  have hS : 0 < S := by omega
  obtain ⟨hs0, hsR, hfloor⟩ := tdiv_step_facts R S g hR hg hgS
  set s := Int.tdiv (R * g) S with hs
  have h1 : 0 ≤ (S - g) * (R * g₀ - s₀ * S) := mul_nonneg (by omega) (by omega)
  have h2 : 0 ≤ g₀ * (R * g - s * S) := mul_nonneg hg0 (by omega)
  have hid : S * ((R - s) * g₀ - s₀ * (S - g))
      = (S - g) * (R * g₀ - s₀ * S) + g₀ * (R * g - s * S) := by ring
  have hkey2 : 0 ≤ S * ((R - s) * g₀ - s₀ * (S - g)) := by
    rw [hid]
    exact add_nonneg h1 h2
  nlinarith [hkey2, hS]

/-- Along a growing pass with non-negative pool, the per-weight share ratio
never decreases: any unfrozen item of the pass whose grow factor is at least
`g₀` receives a share of at least `s₀`, provided `s₀/g₀` under-approximates
the current pool ratio. -/
lemma distributeGrow_ratio_mono (l : List WItem) (R s₀ g₀ : Int) (hR : 0 ≤ R)
    (h0 : 0 ≤ s₀) (hg0 : 0 ≤ g₀)
    (hw : ∀ it ∈ l, it.frozen = false → 1 ≤ it.Grow)
    (hkey : s₀ * sumUnfrozenGrowFactors l ≤ R * g₀) :
    ∀ (i : Nat) (it it' : WItem), l[i]? = some it →
      (distributeGrow R (sumUnfrozenGrowFactors l) l)[i]? = some it' →
      it.frozen = false → g₀ ≤ it.Grow →
      it.flexBaseSize + s₀ ≤ it'.targetMainSize := by
  induction l generalizing R with
  | nil =>
    intro i it it' hit
    simp at hit
  | cons a t ih =>
    intro i it it' hit hit' hfr hgrow
    by_cases hf : a.frozen = true
    · have hS : sumUnfrozenGrowFactors (a :: t) = sumUnfrozenGrowFactors t := by
        rw [sumUnfrozenGrowFactors_cons, if_pos hf]
        omega
      rw [distributeGrow_cons_frozen R (sumUnfrozenGrowFactors (a :: t)) a t hf, hS] at hit'
      match i with
      | 0 =>
        simp only [List.getElem?_cons_zero, Option.some.injEq] at hit
        rw [← hit, hf] at hfr
        cases hfr
      | j + 1 =>
        rw [List.getElem?_cons_succ] at hit hit'
        exact ih R hR (fun x hx h2 => hw x (by simp [hx]) h2) (by rw [← hS]; exact hkey)
          j it it' hit hit' hfr hgrow
    · have hfa : a.frozen = false := by simpa using hf
      have hS : sumUnfrozenGrowFactors (a :: t) = a.Grow + sumUnfrozenGrowFactors t := by
        rw [sumUnfrozenGrowFactors_cons, if_neg hf]
      have hga : 1 ≤ a.Grow := hw a (by simp) hfa
      have hSt : 0 ≤ sumUnfrozenGrowFactors t :=
        sumUnfrozenGrowFactors_nonneg t fun x hx h2 => by
          have := hw x (by simp [hx]) h2
          omega
      have hgS : a.Grow ≤ sumUnfrozenGrowFactors (a :: t) := by omega
      have hSpos : 0 < sumUnfrozenGrowFactors (a :: t) := by omega
      obtain ⟨hs0, hsR, hfloor⟩ :=
        tdiv_step_facts R (sumUnfrozenGrowFactors (a :: t)) a.Grow hR hga hgS
      rw [distributeGrow_cons_unfrozen R (sumUnfrozenGrowFactors (a :: t)) a t hfa] at hit'
      match i with
      | 0 =>
        simp only [List.getElem?_cons_zero, Option.some.injEq] at hit hit'
        have hkey' : s₀ * sumUnfrozenGrowFactors (a :: t) ≤ R * a.Grow := by
          have h3 : R * g₀ ≤ R * a.Grow := by
            rw [← hit] at hgrow
            exact mul_le_mul_of_nonneg_left hgrow hR
          omega
        have h4 := le_tdiv_of_key R (sumUnfrozenGrowFactors (a :: t)) a.Grow s₀ hR hSpos
          (by omega) hkey'
        rw [← hit']
        dsimp only
        rw [← hit]
        omega
      | j + 1 =>
        rw [List.getElem?_cons_succ] at hit hit'
        have hS2 : sumUnfrozenGrowFactors (a :: t) - a.Grow = sumUnfrozenGrowFactors t := by
          omega
        rw [hS2] at hit'
        have hkeyt : s₀ * sumUnfrozenGrowFactors t
            ≤ (R - Int.tdiv (R * a.Grow) (sumUnfrozenGrowFactors (a :: t))) * g₀ := by
          have h5 := ratio_step R (sumUnfrozenGrowFactors (a :: t)) a.Grow s₀ g₀ hR hga hgS
            h0 hg0 hkey
          rw [hS2] at h5
          exact h5
        exact ih (R - Int.tdiv (R * a.Grow) (sumUnfrozenGrowFactors (a :: t))) (by omega)
          (fun x hx h2 => hw x (by simp [hx]) h2) hkeyt j it it' hit hit' hfr hgrow

/-- Within a single growing pass with non-negative remaining free space and
positive unfrozen weights, of two unfrozen items the later one receives a
share (target minus flex base size) at least as large whenever its grow
factor is at least the earlier one's. -/
lemma distributeGrow_mono (l : List WItem) (R : Int) (hR : 0 ≤ R)
    (hw : ∀ it ∈ l, it.frozen = false → 1 ≤ it.Grow) :
    ∀ (p q : Nat) (itp itq itp' itq' : WItem), p < q →
      l[p]? = some itp → l[q]? = some itq →
      (distributeGrow R (sumUnfrozenGrowFactors l) l)[p]? = some itp' →
      (distributeGrow R (sumUnfrozenGrowFactors l) l)[q]? = some itq' →
      itp.frozen = false → itq.frozen = false → itp.Grow ≤ itq.Grow →
      itp'.targetMainSize - itp.flexBaseSize ≤ itq'.targetMainSize - itq.flexBaseSize := by
  induction l generalizing R with
  | nil =>
    intro p q itp itq itp' itq' hpq hp
    simp at hp
  | cons a t ih =>
    intro p q itp itq itp' itq' hpq hp hq hp' hq' hfrp hfrq hgg
    by_cases hf : a.frozen = true
    · have hS : sumUnfrozenGrowFactors (a :: t) = sumUnfrozenGrowFactors t := by
        rw [sumUnfrozenGrowFactors_cons, if_pos hf]
        omega
      rw [distributeGrow_cons_frozen R (sumUnfrozenGrowFactors (a :: t)) a t hf, hS]
        at hp' hq'
      match p, q, hpq with
      | 0, _ + 1, _ =>
        simp only [List.getElem?_cons_zero, Option.some.injEq] at hp
        rw [← hp, hf] at hfrp
        cases hfrp
      | p' + 1, q' + 1, _ =>
        rw [List.getElem?_cons_succ] at hp hq hp' hq'
        exact ih R hR (fun x hx h2 => hw x (by simp [hx]) h2) p' q' itp itq itp' itq'
          (by omega) hp hq hp' hq' hfrp hfrq hgg
    · have hfa : a.frozen = false := by simpa using hf
      have hS : sumUnfrozenGrowFactors (a :: t) = a.Grow + sumUnfrozenGrowFactors t := by
        rw [sumUnfrozenGrowFactors_cons, if_neg hf]
      have hga : 1 ≤ a.Grow := hw a (by simp) hfa
      have hSt : 0 ≤ sumUnfrozenGrowFactors t :=
        sumUnfrozenGrowFactors_nonneg t fun x hx h2 => by
          have := hw x (by simp [hx]) h2
          omega
      have hgS : a.Grow ≤ sumUnfrozenGrowFactors (a :: t) := by omega
      have hSpos : 0 < sumUnfrozenGrowFactors (a :: t) := by omega
      obtain ⟨hs0, hsR, hfloor⟩ :=
        tdiv_step_facts R (sumUnfrozenGrowFactors (a :: t)) a.Grow hR hga hgS
      rw [distributeGrow_cons_unfrozen R (sumUnfrozenGrowFactors (a :: t)) a t hfa]
        at hp' hq'
      match p, q, hpq with
      | 0, q' + 1, _ =>
        simp only [List.getElem?_cons_zero, Option.some.injEq] at hp hp'
        rw [List.getElem?_cons_succ] at hq hq'
        have hS2 : sumUnfrozenGrowFactors (a :: t) - a.Grow = sumUnfrozenGrowFactors t := by
          omega
        rw [hS2] at hq'
        have hkey : Int.tdiv (R * a.Grow) (sumUnfrozenGrowFactors (a :: t))
            * sumUnfrozenGrowFactors t
            ≤ (R - Int.tdiv (R * a.Grow) (sumUnfrozenGrowFactors (a :: t))) * a.Grow := by
          have h5 := ratio_step R (sumUnfrozenGrowFactors (a :: t)) a.Grow
            (Int.tdiv (R * a.Grow) (sumUnfrozenGrowFactors (a :: t))) a.Grow hR hga hgS
            hs0 (by omega) (by omega)
          rw [hS2] at h5
          exact h5
        have hshare := distributeGrow_ratio_mono t
          (R - Int.tdiv (R * a.Grow) (sumUnfrozenGrowFactors (a :: t)))
          (Int.tdiv (R * a.Grow) (sumUnfrozenGrowFactors (a :: t))) a.Grow
          (by omega) hs0 (by omega) (fun x hx h2 => hw x (by simp [hx]) h2) hkey
          q' itq itq' hq hq' hfrq (by rw [← hp] at hgg; exact hgg)
        rw [← hp']
        dsimp only
        rw [← hp]
        omega
      | p' + 1, q' + 1, _ =>
        rw [List.getElem?_cons_succ] at hp hq hp' hq'
        have hS2 : sumUnfrozenGrowFactors (a :: t) - a.Grow = sumUnfrozenGrowFactors t := by
          omega
        rw [hS2] at hp' hq'
        exact ih (R - Int.tdiv (R * a.Grow) (sumUnfrozenGrowFactors (a :: t))) (by omega)
          (fun x hx h2 => hw x (by simp [hx]) h2) p' q' itp itq itp' itq' (by omega)
          hp hq hp' hq' hfrp hfrq hgg

lemma tdiv_neg_facts (R S w : Int) (hR : R ≤ 0) (hw : 1 ≤ w) (hwS : w ≤ S) :
    Int.tdiv (R * w) S ≤ 0 ∧ R ≤ Int.tdiv (R * w) S ∧ R * w ≤ Int.tdiv (R * w) S * S := by
  have hrw : R * w = -(-R * w) := by ring
  obtain ⟨h1, h2, h3⟩ := tdiv_step_facts (-R) S w (by omega) hw hwS
  rw [hrw, Int.neg_tdiv]
  refine ⟨by omega, by omega, ?_⟩
  nlinarith [h3]

lemma tdiv_le_of_key_neg (R S w s₀ : Int) (hR : R ≤ 0) (hS : 0 < S) (hw : 0 ≤ w)
    (hkey : R * w ≤ s₀ * S) : Int.tdiv (R * w) S ≤ s₀ := by
  have hrw : R * w = -(-R * w) := by ring
  rw [hrw, Int.neg_tdiv, Int.tdiv_eq_ediv (mul_nonneg (by omega) hw) (by omega)]
  have h2 : -s₀ ≤ -R * w / S := (Int.le_ediv_iff_mul_le hS).mpr (by nlinarith)
  omega

lemma ratio_step_neg (R S g s₀ g₀ : Int) (hR : R ≤ 0) (hg : 1 ≤ g) (hgS : g ≤ S)
    (h0 : s₀ ≤ 0) (hg0 : 0 ≤ g₀) (hkey : R * g₀ ≤ s₀ * S) :
    (R - Int.tdiv (R * g) S) * g₀ ≤ s₀ * (S - g) := by
  have hS : 0 < S := by omega
  obtain ⟨hs0, hsR, hfloor⟩ := tdiv_neg_facts R S g hR hg hgS
  set s := Int.tdiv (R * g) S with hs
  have h1 : 0 ≤ (S - g) * (s₀ * S - R * g₀) := mul_nonneg (by omega) (by omega)
  have h2 : 0 ≤ g₀ * (s * S - R * g) := mul_nonneg hg0 (by omega)
  have hid : S * (s₀ * (S - g) - (R - s) * g₀)
      = (S - g) * (s₀ * S - R * g₀) + g₀ * (s * S - R * g) := by ring
  have hkey2 : 0 ≤ S * (s₀ * (S - g) - (R - s) * g₀) := by
    rw [hid]
    exact add_nonneg h1 h2
  nlinarith [hkey2, hS]

/-- Along a shrinking pass with non-positive pool, any unfrozen item whose
scaled shrink factor is at least `g₀` is shrunk by at least `-s₀`. -/
lemma distributeShrink_ratio_mono (l : List WItem) (R s₀ g₀ : Int) (hR : R ≤ 0)
    (h0 : s₀ ≤ 0) (hg0 : 0 ≤ g₀)
    (hw : ∀ it ∈ l, it.frozen = false → 1 ≤ scaledShrink it)
    (hkey : R * g₀ ≤ s₀ * sumScaledShrinks l) :
    ∀ (i : Nat) (it it' : WItem), l[i]? = some it →
      (distributeShrink R (sumScaledShrinks l) l)[i]? = some it' →
      it.frozen = false → g₀ ≤ scaledShrink it →
      it'.targetMainSize ≤ it.flexBaseSize + s₀ := by
  induction l generalizing R with
  | nil =>
    intro i it it' hit
    simp at hit
  | cons a t ih =>
    intro i it it' hit hit' hfr hgrow
    by_cases hf : a.frozen = true
    · have hS : sumScaledShrinks (a :: t) = sumScaledShrinks t := by
        rw [sumScaledShrinks_cons, if_pos hf]
        omega
      rw [distributeShrink_cons_frozen R (sumScaledShrinks (a :: t)) a t hf, hS] at hit'
      match i with
      | 0 =>
        simp only [List.getElem?_cons_zero, Option.some.injEq] at hit
        rw [← hit, hf] at hfr
        cases hfr
      | j + 1 =>
        rw [List.getElem?_cons_succ] at hit hit'
        exact ih R hR (fun x hx h2 => hw x (by simp [hx]) h2) (by rw [← hS]; exact hkey)
          j it it' hit hit' hfr hgrow
    · have hfa : a.frozen = false := by simpa using hf
      have hS : sumScaledShrinks (a :: t) = scaledShrink a + sumScaledShrinks t := by
        rw [sumScaledShrinks_cons, if_neg hf]
      have hga : 1 ≤ scaledShrink a := hw a (by simp) hfa
      have hSt : 0 ≤ sumScaledShrinks t :=
        sumScaledShrinks_nonneg t fun x hx h2 => by
          have := hw x (by simp [hx]) h2
          omega
      have hgS : scaledShrink a ≤ sumScaledShrinks (a :: t) := by omega
      have hSpos : 0 < sumScaledShrinks (a :: t) := by omega
      obtain ⟨hs0, hsR, hfloor⟩ :=
        tdiv_neg_facts R (sumScaledShrinks (a :: t)) (scaledShrink a) hR hga hgS
      rw [distributeShrink_cons_unfrozen R (sumScaledShrinks (a :: t)) a t hfa] at hit'
      match i with
      | 0 =>
        simp only [List.getElem?_cons_zero, Option.some.injEq] at hit hit'
        have hkey' : R * scaledShrink a ≤ s₀ * sumScaledShrinks (a :: t) := by
          have h3 : R * scaledShrink a ≤ R * g₀ := by
            rw [← hit] at hgrow
            exact mul_le_mul_of_nonpos_left hgrow hR
          omega
        have h4 := tdiv_le_of_key_neg R (sumScaledShrinks (a :: t)) (scaledShrink a) s₀ hR
          hSpos (by omega) hkey'
        rw [← hit']
        dsimp only
        rw [← hit]
        omega
      | j + 1 =>
        rw [List.getElem?_cons_succ] at hit hit'
        have hS2 : sumScaledShrinks (a :: t) - scaledShrink a = sumScaledShrinks t := by
          omega
        rw [hS2] at hit'
        have hkeyt : (R - Int.tdiv (R * scaledShrink a) (sumScaledShrinks (a :: t))) * g₀
            ≤ s₀ * sumScaledShrinks t := by
          have h5 := ratio_step_neg R (sumScaledShrinks (a :: t)) (scaledShrink a) s₀ g₀ hR
            hga hgS h0 hg0 hkey
          rw [hS2] at h5
          exact h5
        exact ih (R - Int.tdiv (R * scaledShrink a) (sumScaledShrinks (a :: t))) (by omega)
          (fun x hx h2 => hw x (by simp [hx]) h2) hkeyt j it it' hit hit' hfr hgrow

/-- Within a single shrinking pass with non-positive remaining free space, of
two unfrozen items the later one is shrunk at least as much whenever its
scaled shrink factor is at least the earlier one's. -/
lemma distributeShrink_mono (l : List WItem) (R : Int) (hR : R ≤ 0)
    (hw : ∀ it ∈ l, it.frozen = false → 1 ≤ scaledShrink it) :
    ∀ (p q : Nat) (itp itq itp' itq' : WItem), p < q →
      l[p]? = some itp → l[q]? = some itq →
      (distributeShrink R (sumScaledShrinks l) l)[p]? = some itp' →
      (distributeShrink R (sumScaledShrinks l) l)[q]? = some itq' →
      itp.frozen = false → itq.frozen = false → scaledShrink itp ≤ scaledShrink itq →
      itq'.targetMainSize - itq.flexBaseSize ≤ itp'.targetMainSize - itp.flexBaseSize := by
  induction l generalizing R with
  | nil =>
    intro p q itp itq itp' itq' hpq hp
    simp at hp
  | cons a t ih =>
    intro p q itp itq itp' itq' hpq hp hq hp' hq' hfrp hfrq hgg
    by_cases hf : a.frozen = true
    · have hS : sumScaledShrinks (a :: t) = sumScaledShrinks t := by
        rw [sumScaledShrinks_cons, if_pos hf]
        omega
      rw [distributeShrink_cons_frozen R (sumScaledShrinks (a :: t)) a t hf, hS] at hp' hq'
      match p, q, hpq with
      | 0, _ + 1, _ =>
        simp only [List.getElem?_cons_zero, Option.some.injEq] at hp
        rw [← hp, hf] at hfrp
        cases hfrp
      | p' + 1, q' + 1, _ =>
        rw [List.getElem?_cons_succ] at hp hq hp' hq'
        exact ih R hR (fun x hx h2 => hw x (by simp [hx]) h2) p' q' itp itq itp' itq'
          (by omega) hp hq hp' hq' hfrp hfrq hgg
    · have hfa : a.frozen = false := by simpa using hf
      have hS : sumScaledShrinks (a :: t) = scaledShrink a + sumScaledShrinks t := by
        rw [sumScaledShrinks_cons, if_neg hf]
      have hga : 1 ≤ scaledShrink a := hw a (by simp) hfa
      have hSt : 0 ≤ sumScaledShrinks t :=
        sumScaledShrinks_nonneg t fun x hx h2 => by
          have := hw x (by simp [hx]) h2
          omega
      have hgS : scaledShrink a ≤ sumScaledShrinks (a :: t) := by omega
      have hSpos : 0 < sumScaledShrinks (a :: t) := by omega
      obtain ⟨hs0, hsR, hfloor⟩ :=
        tdiv_neg_facts R (sumScaledShrinks (a :: t)) (scaledShrink a) hR hga hgS
      rw [distributeShrink_cons_unfrozen R (sumScaledShrinks (a :: t)) a t hfa] at hp' hq'
      match p, q, hpq with
      | 0, q' + 1, _ =>
        simp only [List.getElem?_cons_zero, Option.some.injEq] at hp hp'
        rw [List.getElem?_cons_succ] at hq hq'
        have hS2 : sumScaledShrinks (a :: t) - scaledShrink a = sumScaledShrinks t := by
          omega
        rw [hS2] at hq'
        have hkey : (R - Int.tdiv (R * scaledShrink a) (sumScaledShrinks (a :: t)))
            * scaledShrink a
            ≤ Int.tdiv (R * scaledShrink a) (sumScaledShrinks (a :: t))
              * sumScaledShrinks t := by
          have h5 := ratio_step_neg R (sumScaledShrinks (a :: t)) (scaledShrink a)
            (Int.tdiv (R * scaledShrink a) (sumScaledShrinks (a :: t))) (scaledShrink a)
            hR hga hgS hs0 (by omega) (by omega)
          rw [hS2] at h5
          exact h5
        have hshare := distributeShrink_ratio_mono t
          (R - Int.tdiv (R * scaledShrink a) (sumScaledShrinks (a :: t)))
          (Int.tdiv (R * scaledShrink a) (sumScaledShrinks (a :: t))) (scaledShrink a)
          (by omega) hs0 (by omega) (fun x hx h2 => hw x (by simp [hx]) h2) hkey
          q' itq itq' hq hq' hfrq (by rw [← hp] at hgg; exact hgg)
        rw [← hp']
        dsimp only
        rw [← hp]
        omega
      | p' + 1, q' + 1, _ =>
        rw [List.getElem?_cons_succ] at hp hq hp' hq'
        have hS2 : sumScaledShrinks (a :: t) - scaledShrink a = sumScaledShrinks t := by
          omega
        rw [hS2] at hp' hq'
        exact ih (R - Int.tdiv (R * scaledShrink a) (sumScaledShrinks (a :: t))) (by omega)
          (fun x hx h2 => hw x (by simp [hx]) h2) p' q' itp itq itp' itq' (by omega)
          hp hq hp' hq' hfrp hfrq hgg

/-! ## Remaining helpers for the claim theorems -/

lemma sizeIfInflexible_false_freezes (it : WItem)
    (h : it.Shrink = 0 ∨ it.flexBaseSize < it.hypoMainSize) :
    sizeIfInflexible false it
      = { it with targetMainSize := it.hypoMainSize, frozen := true } := by
  unfold sizeIfInflexible
  rw [if_neg (by simp), if_pos h]

lemma flexLoop_of_allFrozen (fuel : Nat) (cs : Int) (ug : Bool) (l : List WItem)
    (hf : allFrozen l = true) (hfuel : 1 ≤ fuel) : flexLoop fuel cs ug l = some l := by
  match fuel, hfuel with
  | n + 1, _ =>
    unfold flexLoop
    rw [if_pos hf]

lemma flexLoop_one_body (fuel : Nat) (cs : Int) (ug : Bool) (l : List WItem)
    (h1 : allFrozen l = false) (h2 : allFrozen (loopBody cs ug l) = true)
    (hfuel : 2 ≤ fuel) : flexLoop fuel cs ug l = some (loopBody cs ug l) := by
  match fuel, hfuel with
  | n + 2, _ =>
    unfold flexLoop
    rw [if_neg (by simp [h1])]
    exact flexLoop_of_allFrozen (n + 1) cs ug _ h2 (by omega)

lemma loopStateAt_zero (items : List Item) (cs : Int) :
    loopStateAt items cs 0 = initItems items cs := rfl

lemma initItems_target_zero (items : List Item) (cs : Int) :
    ∀ it ∈ initItems items cs, it.frozen = false → it.targetMainSize = 0 := by
  intro it hmem hfr
  unfold initItems at hmem
  obtain ⟨w, hw, rfl⟩ := List.mem_map.mp hmem
  unfold prepItems at hw
  obtain ⟨x, hx, rfl⟩ := List.mem_map.mp hw
  obtain ⟨_, _, _, _, p5, p6, _, _⟩ := prepItem_spec x
  unfold sizeIfInflexible at hfr ⊢
  split_ifs at hfr ⊢ <;> first | (simp at hfr) | exact p6

lemma flexLoop_exported (items : List Item) (cs : Int) (ug : Bool) (fin : List WItem)
    (h : flexLoop ((prepItems items).length + 1) (clampContainer cs) ug
      ((prepItems items).map (sizeIfInflexible ug)) = some fin) :
    fin.map wExported = items.map Validate := by
  have hp := flexLoop_persistent _ _ _ _ _ h
  have hinit : ((prepItems items).map (sizeIfInflexible ug)).map persistent
      = (prepItems items).map persistent := by
    rw [List.map_map]
    exact List.map_congr_left fun x _ => sizeIfInflexible_persistent _ x
  rw [hinit] at hp
  calc fin.map wExported
      = (prepItems items).map wExported := map_exported_of_persistent _ _ hp
    _ = items.map Validate := prepItems_exported items

/-! ## Claim theorems -/

/-- C1: for every list of items and every container size, `ResolveFlexLengths`
terminates within its iteration bound of `N+1` loop iterations (the fuel of
`flexLoop`) and never reaches the `panic("no solution found")` branch, which
is modelled by the `none` result: the result is always `some`. -/
theorem c1_resolve_never_panics (items : List Item) (cs : Int) :
    (ResolveFlexLengths items cs).isSome = true :=
  resolve_isSome items cs

/-- C9: normalization is idempotent — applying `Validate` twice gives the same
caller-visible fields as applying it once. -/
theorem c9_validate_idempotent (it : Item) : Validate (Validate it) = Validate it :=
  Validate_idem it

/-- C5 counterexample: for the two-item input where the first item has grow 1,
the second has grow 2 and basis 10, all other fields default (Go zero values),
and container size 60, `ResolveFlexLengths` returns `[16, 44]`, not the
`[26, 34]` the claim states (the repository's own test
`TestFlexGrowBasisNonZero` expects `[16, 44]` for this input and `[26, 34]`
for the input with basis 10 on the FIRST item). -/
theorem c5_counterexample :
    ResolveFlexLengths [(⟨0, 1, 0, 0, 0, 0⟩ : Item), ⟨10, 2, 0, 0, 0, 0⟩] 60
        = some [16, 44] ∧
      ([16, 44] : List Int) ≠ [26, 34] := by
  constructor
  · decide
  · decide

/-- C5 amended: the input producing `[26, 34]` at container size 60 is the one
with grow 1 and basis 10 on the first item and grow 2 (basis default) on the
second. -/
theorem c5_amended :
    ResolveFlexLengths [(⟨10, 1, 0, 0, 0, 0⟩ : Item), ⟨0, 2, 0, 0, 0, 0⟩] 60
      = some [26, 34] := by
  decide

/-- C10: `ResolveFlexLengths` mutates the caller's item records in place —
at return, every item's exported fields hold the values `Validate` produced
(`finalWItems` models the records the caller's slice aliases), and these are
not in general the values the caller supplied (for the all-zero item,
normalization changes `Min` from 0 to 1, among others). -/
theorem c10_items_mutated_to_normalized :
    (∀ (items : List Item) (cs : Int), ∃ fs, finalWItems items cs = some fs ∧
        fs.map wExported = items.map Validate) ∧
      Validate ⟨0, 0, 0, 0, 0, 0⟩ ≠ (⟨0, 0, 0, 0, 0, 0⟩ : Item) := by
  constructor
  · intro items cs
    obtain ⟨fs, hfs⟩ := Option.isSome_iff_exists.mp (finalWItems_isSome items cs)
    exact ⟨fs, hfs, finalWItems_exported items cs fs hfs⟩
  · decide

/-- C4: whenever some item is unfrozen at the start of a loop iteration (any
number `k` of iterations into the call), the distribution divisor is
positive: the sum of unfrozen grow factors in growing mode, the sum of
unfrozen scaled shrink factors in shrinking mode — the pre-freeze pass
removed every zero-weight item from the unfrozen set. -/
theorem c4_divisor_positive (items : List Item) (cs : Int) (k : Nat)
    (hex : ∃ it ∈ loopStateAt items cs k, it.frozen = false) :
    (useGrowOf items cs = true → 0 < sumUnfrozenGrowFactors (loopStateAt items cs k)) ∧
      (useGrowOf items cs = false → 0 < sumScaledShrinks (loopStateAt items cs k)) := by
  have hinv := loopStateAt_loopInv items cs k
  constructor
  · intro hug
    refine sumUnfrozenGrowFactors_pos _ ?_ hex
    intro it hit
    have := hinv it hit
    rwa [hug] at this
  · intro hug
    refine sumScaledShrinks_pos _ ?_ hex
    intro it hit
    have := hinv it hit
    rwa [hug] at this

theorem c4_witness :
    (∃ it ∈ loopStateAt [(⟨0, 1, 0, 0, 0, 0⟩ : Item)] 60 0, it.frozen = false) ∧
      ((useGrowOf [(⟨0, 1, 0, 0, 0, 0⟩ : Item)] 60 = true →
          0 < sumUnfrozenGrowFactors (loopStateAt [(⟨0, 1, 0, 0, 0, 0⟩ : Item)] 60 0)) ∧
        (useGrowOf [(⟨0, 1, 0, 0, 0, 0⟩ : Item)] 60 = false →
          0 < sumScaledShrinks (loopStateAt [(⟨0, 1, 0, 0, 0, 0⟩ : Item)] 60 0))) :=
  ⟨by decide, c4_divisor_positive _ _ _ (by decide)⟩

/-- C8 counterexample: two items identical in every field (basis 10, default
size/min/max) except grow — the first has the LARGER grow factor 2, the
second grow 1 — at container size 21 (growing mode).  The larger-grow item
receives 10, the smaller-grow item 11: with truncating division, the later
item absorbs the remainder, so the claimed monotonicity fails as stated. -/
theorem c8_counterexample :
    useGrowOf [(⟨10, 2, 0, 0, 0, 0⟩ : Item), ⟨10, 1, 0, 0, 0, 0⟩] 21 = true ∧
      ResolveFlexLengths [(⟨10, 2, 0, 0, 0, 0⟩ : Item), ⟨10, 1, 0, 0, 0, 0⟩] 21
        = some [10, 11] ∧
      (1 : Int) < 2 ∧ ¬ ((11 : Int) ≤ 10) := by
  refine ⟨by decide, by decide, by decide, by decide⟩

/-- C8 amended: the monotonicity holds within one distribution pass for items
in positional order.  In a growing pass with non-negative remaining free
space over unfrozen items of positive grow factors, of two unfrozen items
with equal flex base size where the item with the larger-or-equal grow factor
appears LATER in input order, the pass assigns the later item a target at
least as large; symmetrically, in a shrinking pass with non-positive
remaining free space and positive scaled shrink weights, the later item with
the larger-or-equal scaled shrink weight is assigned a target at most as
large.  Across a whole call, with no order restriction, the property fails
(see the counterexample). -/
theorem c8_amended (l : List WItem) (R : Int) (p q : Nat) (itp itq itp' itq' : WItem)
    (hpq : p < q) (hp : l[p]? = some itp) (hq : l[q]? = some itq)
    (hfrp : itp.frozen = false) (hfrq : itq.frozen = false)
    (hfbs : itp.flexBaseSize = itq.flexBaseSize) :
    (0 ≤ R → (∀ it ∈ l, it.frozen = false → 1 ≤ it.Grow) → itp.Grow ≤ itq.Grow →
      (distributeGrow R (sumUnfrozenGrowFactors l) l)[p]? = some itp' →
      (distributeGrow R (sumUnfrozenGrowFactors l) l)[q]? = some itq' →
      itp'.targetMainSize ≤ itq'.targetMainSize) ∧
    (R ≤ 0 → (∀ it ∈ l, it.frozen = false → 1 ≤ scaledShrink it) →
      scaledShrink itp ≤ scaledShrink itq →
      (distributeShrink R (sumScaledShrinks l) l)[p]? = some itp' →
      (distributeShrink R (sumScaledShrinks l) l)[q]? = some itq' →
      itq'.targetMainSize ≤ itp'.targetMainSize) := by
  constructor
  · intro hR hw hgg hp' hq'
    have := distributeGrow_mono l R hR hw p q itp itq itp' itq' hpq hp hq hp' hq'
      hfrp hfrq hgg
    omega
  · intro hR hw hgg hp' hq'
    have := distributeShrink_mono l R hR hw p q itp itq itp' itq' hpq hp hq hp' hq'
      hfrp hfrq hgg
    omega

theorem c8_witness :
    ((0 : Nat) < 1 ∧
      ([(⟨0, 1, 0, 1, 1, 0, 10, 10, false, 0⟩ : WItem),
        ⟨0, 2, 0, 1, 1, 0, 10, 10, false, 0⟩])[0]?
        = some (⟨0, 1, 0, 1, 1, 0, 10, 10, false, 0⟩ : WItem) ∧
      ([(⟨0, 1, 0, 1, 1, 0, 10, 10, false, 0⟩ : WItem),
        ⟨0, 2, 0, 1, 1, 0, 10, 10, false, 0⟩])[1]?
        = some (⟨0, 2, 0, 1, 1, 0, 10, 10, false, 0⟩ : WItem)) ∧
    ((0 ≤ (1 : Int) →
        (∀ it ∈ [(⟨0, 1, 0, 1, 1, 0, 10, 10, false, 0⟩ : WItem),
          ⟨0, 2, 0, 1, 1, 0, 10, 10, false, 0⟩], it.frozen = false → 1 ≤ it.Grow) →
        (⟨0, 1, 0, 1, 1, 0, 10, 10, false, 0⟩ : WItem).Grow
          ≤ (⟨0, 2, 0, 1, 1, 0, 10, 10, false, 0⟩ : WItem).Grow →
        (distributeGrow 1
          (sumUnfrozenGrowFactors [(⟨0, 1, 0, 1, 1, 0, 10, 10, false, 0⟩ : WItem),
            ⟨0, 2, 0, 1, 1, 0, 10, 10, false, 0⟩])
          [(⟨0, 1, 0, 1, 1, 0, 10, 10, false, 0⟩ : WItem),
            ⟨0, 2, 0, 1, 1, 0, 10, 10, false, 0⟩])[0]?
          = some (⟨0, 1, 0, 1, 1, 0, 10, 10, false, 10⟩ : WItem) →
        (distributeGrow 1
          (sumUnfrozenGrowFactors [(⟨0, 1, 0, 1, 1, 0, 10, 10, false, 0⟩ : WItem),
            ⟨0, 2, 0, 1, 1, 0, 10, 10, false, 0⟩])
          [(⟨0, 1, 0, 1, 1, 0, 10, 10, false, 0⟩ : WItem),
            ⟨0, 2, 0, 1, 1, 0, 10, 10, false, 0⟩])[1]?
          = some (⟨0, 2, 0, 1, 1, 0, 10, 10, false, 11⟩ : WItem) →
        (⟨0, 1, 0, 1, 1, 0, 10, 10, false, 10⟩ : WItem).targetMainSize
          ≤ (⟨0, 2, 0, 1, 1, 0, 10, 10, false, 11⟩ : WItem).targetMainSize) ∧
      ((1 : Int) ≤ 0 →
        (∀ it ∈ [(⟨0, 1, 0, 1, 1, 0, 10, 10, false, 0⟩ : WItem),
          ⟨0, 2, 0, 1, 1, 0, 10, 10, false, 0⟩], it.frozen = false → 1 ≤ scaledShrink it) →
        scaledShrink (⟨0, 1, 0, 1, 1, 0, 10, 10, false, 0⟩ : WItem)
          ≤ scaledShrink (⟨0, 2, 0, 1, 1, 0, 10, 10, false, 0⟩ : WItem) →
        (distributeShrink 1
          (sumScaledShrinks [(⟨0, 1, 0, 1, 1, 0, 10, 10, false, 0⟩ : WItem),
            ⟨0, 2, 0, 1, 1, 0, 10, 10, false, 0⟩])
          [(⟨0, 1, 0, 1, 1, 0, 10, 10, false, 0⟩ : WItem),
            ⟨0, 2, 0, 1, 1, 0, 10, 10, false, 0⟩])[0]?
          = some (⟨0, 1, 0, 1, 1, 0, 10, 10, false, 10⟩ : WItem) →
        (distributeShrink 1
          (sumScaledShrinks [(⟨0, 1, 0, 1, 1, 0, 10, 10, false, 0⟩ : WItem),
            ⟨0, 2, 0, 1, 1, 0, 10, 10, false, 0⟩])
          [(⟨0, 1, 0, 1, 1, 0, 10, 10, false, 0⟩ : WItem),
            ⟨0, 2, 0, 1, 1, 0, 10, 10, false, 0⟩])[1]?
          = some (⟨0, 2, 0, 1, 1, 0, 10, 10, false, 11⟩ : WItem) →
        (⟨0, 2, 0, 1, 1, 0, 10, 10, false, 11⟩ : WItem).targetMainSize
          ≤ (⟨0, 1, 0, 1, 1, 0, 10, 10, false, 10⟩ : WItem).targetMainSize)) :=
  ⟨⟨by decide, by decide, by decide⟩,
    c8_amended _ 1 0 1 _ _ (⟨0, 1, 0, 1, 1, 0, 10, 10, false, 10⟩ : WItem)
      (⟨0, 2, 0, 1, 1, 0, 10, 10, false, 11⟩ : WItem)
      (by decide) (by decide) (by decide) (by decide) (by decide) (by decide)⟩

/-- C2: every returned width is at least 1, at least the item's
post-normalization `Min`, and — when the item's post-normalization `Max` is
non-zero — at most that `Max`. -/
theorem c2_output_bounds (items : List Item) (cs : Int) (ws : List Int)
    (h : ResolveFlexLengths items cs = some ws) (i : Nat)
    (hi : i < items.length) (hiw : i < ws.length) :
    1 ≤ ws[i] ∧ (Validate items[i]).Min ≤ ws[i] ∧
      ((Validate items[i]).Max ≠ 0 → ws[i] ≤ (Validate items[i]).Max) := by
  by_cases hfast : sumHypo (prepItems items) = clampContainer cs
  · simp only [ResolveFlexLengths] at h
    rw [if_pos hfast, Option.some.injEq] at h
    subst h
    simp only [prepItems, List.map_map]
    rw [List.getElem_map]
    dsimp only [Function.comp]
    obtain ⟨p1, p2, p3, p4, _, _, _, _⟩ := prepItem_spec items[i]
    rw [prepItem_Min] at p1 p3
    rw [prepItem_Max] at p4
    exact ⟨by omega, p3, p4⟩
  · simp only [ResolveFlexLengths] at h
    rw [if_neg hfast] at h
    cases hflex : flexLoop ((prepItems items).length + 1) (clampContainer cs)
        (decide (sumHypo (prepItems items) < clampContainer cs))
        ((prepItems items).map (sizeIfInflexible
          (decide (sumHypo (prepItems items) < clampContainer cs)))) with
    | none =>
      rw [hflex] at h
      simp at h
    | some fin =>
      rw [hflex] at h
      simp only [Option.some.injEq] at h
      subst h
      have hexp : fin.map wExported = items.map Validate :=
        flexLoop_exported items cs _ fin hflex
      have hlen : fin.length = items.length := by
        have := congrArg List.length hexp
        simpa using this
      have hinv := flexLoop_loopInv _ _ _ _ _ hflex (initItems_loopInv items cs)
      have hall := flexLoop_allFrozen _ _ _ _ _ hflex
      have hif : i < fin.length := by omega
      rw [List.getElem_map]
      have hmem : fin[i] ∈ fin := List.getElem_mem hif
      have hfr : fin[i].frozen = true := by
        unfold allFrozen at hall
        exact List.all_eq_true.mp hall _ hmem
      obtain ⟨⟨w1, _⟩, hb, _⟩ := hinv fin[i] hmem
      obtain ⟨hb1, hb2⟩ := hb hfr
      have hfield : wExported fin[i] = Validate items[i] := by
        have h1 := List.getElem_of_eq hexp (show i < (fin.map wExported).length by simpa)
        rw [List.getElem_map, List.getElem_map] at h1
        exact h1
      have hMin : fin[i].Min = (Validate items[i]).Min := by
        rw [← hfield]
        rfl
      have hMax : fin[i].Max = (Validate items[i]).Max := by
        rw [← hfield]
        rfl
      refine ⟨by omega, by omega, fun hmx => ?_⟩
      have := hb2 (by omega)
      omega

theorem c2_witness :
    ResolveFlexLengths [(⟨10, 0, 0, 0, 0, 0⟩ : Item)] 60 = some [10] ∧
      (1 ≤ ([10] : List Int)[0] ∧
        (Validate (⟨10, 0, 0, 0, 0, 0⟩ : Item)).Min ≤ ([10] : List Int)[0] ∧
        ((Validate (⟨10, 0, 0, 0, 0, 0⟩ : Item)).Max ≠ 0 →
          ([10] : List Int)[0] ≤ (Validate (⟨10, 0, 0, 0, 0, 0⟩ : Item)).Max)) :=
  ⟨by decide, c2_output_bounds [(⟨10, 0, 0, 0, 0, 0⟩ : Item)] 60 [10] (by decide) 0
    (by decide) (by decide)⟩

/-- C7: the returned list has exactly one width per input item, and the width
at each position is the one resolved for the item at that position: the final
item states (`finalWItems`) correspond positionally to the inputs (their
exported fields are the validated fields of the input at the same position),
and the output is the positional projection of those states (hypothetical
main sizes on the fast path, target main sizes otherwise). -/
theorem c7_output_length_and_order (items : List Item) (cs : Int) (ws : List Int)
    (h : ResolveFlexLengths items cs = some ws) :
    ws.length = items.length ∧
      ∃ fs, finalWItems items cs = some fs ∧ fs.map wExported = items.map Validate ∧
        ws = fs.map (fun it =>
          if sumHypo (prepItems items) = clampContainer cs
          then it.hypoMainSize else it.targetMainSize) := by
  have hre := resolve_eq_final items cs
  rw [h] at hre
  cases hfs : finalWItems items cs with
  | none =>
    rw [hfs] at hre
    simp at hre
  | some fs =>
    rw [hfs] at hre
    simp only [Option.map_some', Option.some.injEq] at hre
    have hexp := finalWItems_exported items cs fs hfs
    have hlen : fs.length = items.length := by
      have := congrArg List.length hexp
      simpa using this
    have hws : ws = fs.map (fun it =>
        if sumHypo (prepItems items) = clampContainer cs
        then it.hypoMainSize else it.targetMainSize) := by
      rw [hre]
      by_cases hc : sumHypo (prepItems items) = clampContainer cs
      · rw [if_pos hc]
        exact List.map_congr_left fun it _ => by rw [if_pos hc]
      · rw [if_neg hc]
        exact List.map_congr_left fun it _ => by rw [if_neg hc]
    refine ⟨?_, fs, rfl, hexp, hws⟩
    rw [hws]
    simp [hlen]

theorem c7_witness :
    ResolveFlexLengths [(⟨0, 1, 0, 0, 0, 0⟩ : Item)] 60 = some [60] ∧
      (([60] : List Int).length = ([(⟨0, 1, 0, 0, 0, 0⟩ : Item)] : List Item).length ∧
        ∃ fs, finalWItems [(⟨0, 1, 0, 0, 0, 0⟩ : Item)] 60 = some fs ∧
          fs.map wExported = ([(⟨0, 1, 0, 0, 0, 0⟩ : Item)] : List Item).map Validate ∧
          ([60] : List Int) = fs.map (fun it =>
            if sumHypo (prepItems [(⟨0, 1, 0, 0, 0, 0⟩ : Item)]) = clampContainer 60
            then it.hypoMainSize else it.targetMainSize)) :=
  ⟨by decide, c7_output_length_and_order [(⟨0, 1, 0, 0, 0, 0⟩ : Item)] 60 [60] (by decide)⟩

/-- C3 counterexample: for the single item with basis 10 and shrink 1 at
container size 10, the hypothetical sizes sum exactly to the container size,
the fast path returns `[10]`, but running the full loop with the fast path
removed returns `[1]`: the item stays unfrozen in the shrinking direction,
the remaining free space is 0 so no distribution runs, and the clamp pass
raises its never-assigned (zero) target to `Min = 1` — so the fast path is
observable, not a pure optimization. -/
theorem c3_counterexample :
    sumHypo (prepItems [(⟨10, 0, 1, 0, 0, 0⟩ : Item)]) = clampContainer 10 ∧
      ResolveFlexLengths [(⟨10, 0, 1, 0, 0, 0⟩ : Item)] 10 = some [10] ∧
      ResolveFlexLengthsNoFast [(⟨10, 0, 1, 0, 0, 0⟩ : Item)] 10 = some [1] ∧
      ResolveFlexLengths [(⟨10, 0, 1, 0, 0, 0⟩ : Item)] 10
        ≠ ResolveFlexLengthsNoFast [(⟨10, 0, 1, 0, 0, 0⟩ : Item)] 10 := by
  refine ⟨by decide, by decide, by decide, by decide⟩

/-- C3 amended: on the boundary (hypothetical sizes summing exactly to the
clamped container size), the fast path agrees with the full loop run without
it whenever every preprocessed item is structurally inflexible in the
shrinking direction chosen there (shrink factor 0, or flex base size below
the hypothetical main size) — then the pre-freeze pass freezes every item at
its hypothetical main size and the loop exits immediately with the same
output.  In general the two differ (see the counterexample). -/
theorem c3_amended (items : List Item) (cs : Int)
    (hfast : sumHypo (prepItems items) = clampContainer cs)
    (hinfl : ∀ it ∈ prepItems items, it.Shrink = 0 ∨ it.flexBaseSize < it.hypoMainSize) :
    ResolveFlexLengths items cs = ResolveFlexLengthsNoFast items cs := by
  have hug : decide (sumHypo (prepItems items) < clampContainer cs) = false := by
    simp [hfast]
  have hallf : allFrozen ((prepItems items).map (sizeIfInflexible false)) = true := by
    unfold allFrozen
    rw [List.all_eq_true]
    intro x hx
    obtain ⟨w, hw, rfl⟩ := List.mem_map.mp hx
    rw [sizeIfInflexible_false_freezes w (hinfl w hw)]
  have htargets : ((prepItems items).map (sizeIfInflexible false)).map WItem.targetMainSize
      = (prepItems items).map WItem.hypoMainSize := by
    rw [List.map_map]
    refine List.map_congr_left fun w hw => ?_
    dsimp only [Function.comp]
    rw [sizeIfInflexible_false_freezes w (hinfl w hw)]
  simp only [ResolveFlexLengths, ResolveFlexLengthsNoFast, hug]
  rw [if_pos hfast,
    flexLoop_of_allFrozen ((prepItems items).length + 1) (clampContainer cs) false
      ((prepItems items).map (sizeIfInflexible false)) hallf (by omega)]
  show some ((prepItems items).map WItem.hypoMainSize)
      = some (((prepItems items).map (sizeIfInflexible false)).map WItem.targetMainSize)
  rw [htargets]

theorem c3_witness :
    sumHypo (prepItems [(⟨10, 0, 0, 0, 0, 0⟩ : Item)]) = clampContainer 10 ∧
      (∀ it ∈ prepItems [(⟨10, 0, 0, 0, 0, 0⟩ : Item)],
        it.Shrink = 0 ∨ it.flexBaseSize < it.hypoMainSize) ∧
      ResolveFlexLengths [(⟨10, 0, 0, 0, 0, 0⟩ : Item)] 10
        = ResolveFlexLengthsNoFast [(⟨10, 0, 0, 0, 0, 0⟩ : Item)] 10 :=
  ⟨by decide, by decide,
    c3_amended [(⟨10, 0, 0, 0, 0, 0⟩ : Item)] 10 (by decide) (by decide)⟩

/-- C6 counterexample: the single inflexible item with basis 100 at container
size 60 is frozen by the pre-freeze pass, the loop exits immediately, no
clamp is ever applied in any executed iteration (at most `N+1 = 2`), yet the
output sums to 100, not the container size 60: conservation as claimed fails
when every item is frozen before distribution. -/
theorem c6_counterexample :
    (∀ k < 2, allFrozen (loopStateAt [(⟨100, 0, 0, 0, 0, 0⟩ : Item)] 60 k) = false →
        iterViolation (clampContainer 60) (useGrowOf [(⟨100, 0, 0, 0, 0, 0⟩ : Item)] 60)
          (loopStateAt [(⟨100, 0, 0, 0, 0, 0⟩ : Item)] 60 k) = false) ∧
      ResolveFlexLengths [(⟨100, 0, 0, 0, 0, 0⟩ : Item)] 60 = some [100] ∧
      ([100] : List Int).sum ≠ clampContainer 60 := by
  refine ⟨by decide, by decide, by decide⟩

/-- C6 amended: if no clamp violation is recorded in any executed iteration
AND the distribution actually runs — the fast path is taken, or at least one
item survives the pre-freeze pass unfrozen — then the returned widths sum
exactly to the clamped container size. -/
theorem c6_amended (items : List Item) (cs : Int) (ws : List Int)
    (hres : ResolveFlexLengths items cs = some ws)
    (hflex : sumHypo (prepItems items) = clampContainer cs ∨
      ∃ it ∈ initItems items cs, it.frozen = false)
    (hnov : ∀ k < items.length + 1,
      allFrozen (loopStateAt items cs k) = false →
        iterViolation (clampContainer cs) (useGrowOf items cs)
          (loopStateAt items cs k) = false) :
    ws.sum = clampContainer cs := by
  by_cases hfast : sumHypo (prepItems items) = clampContainer cs
  · simp only [ResolveFlexLengths] at hres
    rw [if_pos hfast, Option.some.injEq] at hres
    subst hres
    exact hfast
  · have hexu : ∃ it ∈ initItems items cs, it.frozen = false := by
      rcases hflex with hc | hc
      · exact absurd hc hfast
      · exact hc
    have h0 : allFrozen (initItems items cs) = false := by
      obtain ⟨it, hit, hfr⟩ := hexu
      unfold allFrozen
      rw [List.all_eq_false]
      exact ⟨it, hit, by simp [hfr]⟩
    have hnov0 := hnov 0 (by omega) (by rw [loopStateAt_zero]; exact h0)
    rw [loopStateAt_zero] at hnov0
    obtain ⟨hall1, hsum1⟩ := loopBody_of_noViolation (clampContainer cs) (useGrowOf items cs)
      (initItems items cs) (initItems_loopInv items cs)
      (initItems_target_zero items cs) hexu hnov0
    have hne : initItems items cs ≠ [] := by
      obtain ⟨it, hit, _⟩ := hexu
      exact List.ne_nil_of_mem hit
    have hlen1 : 0 < (initItems items cs).length := List.length_pos.mpr hne
    have hleninit : (initItems items cs).length = (prepItems items).length := by
      unfold initItems
      simp
    have hone := flexLoop_one_body ((prepItems items).length + 1) (clampContainer cs)
      (useGrowOf items cs) (initItems items cs) h0 hall1 (by omega)
    have hone' : flexLoop ((prepItems items).length + 1) (clampContainer cs)
        (decide (sumHypo (prepItems items) < clampContainer cs))
        ((prepItems items).map (sizeIfInflexible
          (decide (sumHypo (prepItems items) < clampContainer cs))))
        = some (loopBody (clampContainer cs) (useGrowOf items cs) (initItems items cs)) :=
      hone
    simp only [ResolveFlexLengths] at hres
    rw [if_neg hfast] at hres
    cases hflexEq : flexLoop ((prepItems items).length + 1) (clampContainer cs)
        (decide (sumHypo (prepItems items) < clampContainer cs))
        ((prepItems items).map (sizeIfInflexible
          (decide (sumHypo (prepItems items) < clampContainer cs)))) with
    | none =>
      rw [hflexEq] at hres
      simp at hres
    | some fin =>
      rw [hflexEq] at hres
      simp only [Option.some.injEq] at hres
      subst hres
      rw [hflexEq] at hone'
      have hfin : fin = loopBody (clampContainer cs) (useGrowOf items cs)
          (initItems items cs) := Option.some.inj hone'
      rw [hfin]
      exact hsum1

theorem c6_witness :
    ResolveFlexLengths [(⟨0, 1, 0, 0, 0, 0⟩ : Item)] 60 = some [60] ∧
      (∃ it ∈ initItems [(⟨0, 1, 0, 0, 0, 0⟩ : Item)] 60, it.frozen = false) ∧
      (∀ k < ([(⟨0, 1, 0, 0, 0, 0⟩ : Item)] : List Item).length + 1,
        allFrozen (loopStateAt [(⟨0, 1, 0, 0, 0, 0⟩ : Item)] 60 k) = false →
          iterViolation (clampContainer 60) (useGrowOf [(⟨0, 1, 0, 0, 0, 0⟩ : Item)] 60)
            (loopStateAt [(⟨0, 1, 0, 0, 0, 0⟩ : Item)] 60 k) = false) ∧
      ([60] : List Int).sum = clampContainer 60 :=
  ⟨by decide, by decide, by decide,
    c6_amended [(⟨0, 1, 0, 0, 0, 0⟩ : Item)] 60 [60] (by decide)
      (Or.inr (by decide)) (by decide)⟩
